import Mathlib

/-!
Verification of the geometric consistency engine of the curvilinear polygon
editor.

The Lean definitions below are a shallow embedding of the Python source:

* `src/geometry.py` — geometry primitives (`unit`, `rot90_ccw`, `rot90_cw`,
  `norm_angle`, `neighbour_tangent`, `compute_arc_geometry_for_edge`);
* `src/graphics/polygon_item.py` — the polygon engine
  (`_enforce_edge_constraint`, `on_vertex_moved`, `adjacent_edges_of_vertex`,
  `apply_continuity_to_vertex`, `enforce_vertex_continuity_from_vertex`,
  `_arc_tangent_at_vertex`, `delete_vertex`).

Python floats are embedded as real numbers, `math.hypot x y` as
`Real.sqrt (x^2 + y^2)`, and the mutable object graph as an explicit
`PolyState` record: vertices are identified by stable natural-number ids
(mirroring Python object identity), positions and continuity flags are maps
from ids, and edges are records in a list (Bézier control points are stored
inline in the edge record, matching the source where control points are
private to their edge).  The enum types `EdgeType`, `ContinuityType` and
`ConstraintType` and the default fields of a freshly constructed plain
`Edge` are modelled from the spec (§3): the final `model` module itself is
not among the provided source files, only its callers are.
-/

namespace PolyEdit

/-- Modelled from the spec: edge variant tag `{Line, Bezier, Arc}`
(`EdgeType` of the model module, which is not among the source files). -/
inductive EdgeType where
  | LINE
  | BEZIER
  | ARC
deriving DecidableEq, Repr

/-- Modelled from the spec: continuity requirement `{G0, G1, C1}` of a
vertex, default `G0` (`ContinuityType` of the model module). -/
inductive ContinuityType where
  | G0
  | G1
  | C1
deriving DecidableEq, Repr

/-- Modelled from the spec: optional directional constraint of a Line edge,
`None | Vertical | Diagonal45 | FixedLength` (`ConstraintType` of the model
module). -/
inductive ConstraintType where
  | NONE
  | VERTICAL
  | DIAGONAL_45
  | FIXED_LENGTH
deriving DecidableEq, Repr

/-- A 2D point with real coordinates (a Python `Vertex`'s `x`/`y` pair, or a
Bézier control point). -/
structure Point where
  x : ℝ
  y : ℝ

theorem Point.ext_iff' (p q : Point) : p = q ↔ p.x = q.x ∧ p.y = q.y := by
  constructor
  · intro h; subst h; exact ⟨rfl, rfl⟩
  · rintro ⟨hx, hy⟩; cases p; cases q; simp_all

/-- `math.hypot x y` of the Python standard library: the Euclidean norm
`sqrt (x² + y²)`.  Also embeds the source's `(dx*dx+dy*dy) ** 0.5`. -/
noncomputable def hypot (x y : ℝ) : ℝ := Real.sqrt (x ^ 2 + y ^ 2)

theorem hypot_nonneg (x y : ℝ) : 0 ≤ hypot x y := Real.sqrt_nonneg _

theorem sq_hypot (x y : ℝ) : hypot x y ^ 2 = x ^ 2 + y ^ 2 :=
  Real.sq_sqrt (by positivity)

theorem hypot_mul (c x y : ℝ) : hypot (c * x) (c * y) = |c| * hypot x y := by
  unfold hypot
  rw [show (c * x) ^ 2 + (c * y) ^ 2 = c ^ 2 * (x ^ 2 + y ^ 2) by ring,
    Real.sqrt_mul (sq_nonneg c), Real.sqrt_sq_eq_abs]

theorem hypot_eq_zero_iff (x y : ℝ) : hypot x y = 0 ↔ x = 0 ∧ y = 0 := by
  unfold hypot
  rw [Real.sqrt_eq_zero (by positivity)]
  constructor
  · intro h
    constructor <;> nlinarith [sq_nonneg x, sq_nonneg y]
  · rintro ⟨hx, hy⟩; rw [hx, hy]; ring

theorem hypot_pos_of_ne {x y : ℝ} (h : ¬(x = 0 ∧ y = 0)) : 0 < hypot x y := by
  rcases lt_or_eq_of_le (hypot_nonneg x y) with h' | h'
  · exact h'
  · exact absurd ((hypot_eq_zero_iff x y).1 h'.symm) h

/-- Python `1 if t >= 0 else -1` (the `sx`/`sy` sign selectors of the
Diagonal45 enforcement code). -/
noncomputable def signGE (t : ℝ) : ℝ := if 0 ≤ t then 1 else -1

theorem signGE_sq (t : ℝ) : signGE t ^ 2 = 1 := by
  unfold signGE; split <;> norm_num

theorem abs_signGE (t : ℝ) : |signGE t| = 1 := by
  unfold signGE; split <;> simp

/-! ### Pure constraint-enforcement steps

`_enforce_edge_constraint` (src/graphics/polygon_item.py, lines 420-468)
repositions `v2` with `v1` held fixed.  The three repositioning rules are
embedded as pure functions from the pair of endpoint positions to the new
position of `v2`; `apply_constraint_to_edge` (lines 1182-1221) performs the
same computations when a constraint is first assigned. -/

/-- `VERTICAL` branch: `v2.x = v1.x` (y untouched). -/
def verticalStep (p1 p2 : Point) : Point := ⟨p1.x, p2.y⟩

/-- `FIXED_LENGTH` branch: scale `v2 - v1` to length `L`; if the current
distance is zero, place `v2` at `v1 + (L, 0)`. -/
noncomputable def fixedLengthStep (L : ℝ) (p1 p2 : Point) : Point :=
  let dx := p2.x - p1.x
  let dy := p2.y - p1.y
  let dist := hypot dx dy
  if dist = 0 then
    ⟨p1.x + L, p1.y⟩
  else
    let scale := L / dist
    ⟨p1.x + dx * scale, p1.y + dy * scale⟩

/-- `DIAGONAL_45` branch: snap the direction of `v2 - v1` to the 45° diagonal
of the quadrant of `(dx, dy)` while preserving the current Euclidean length;
if that length is below `1e-8`, take a unit step along the diagonal. -/
noncomputable def diag45Step (p1 p2 : Point) : Point :=
  let dx := p2.x - p1.x
  let dy := p2.y - p1.y
  let dist := hypot dx dy
  if dist < 1e-8 then
    let ux := signGE dx * (1 / Real.sqrt 2)
    let uy := signGE dy * (1 / Real.sqrt 2)
    ⟨p1.x + ux * 1, p1.y + uy * 1⟩
  else
    let ux := signGE dx * (1 / Real.sqrt 2)
    let uy := signGE dy * (1 / Real.sqrt 2)
    ⟨p1.x + ux * dist, p1.y + uy * dist⟩

theorem sqrt_two_pos : (0:ℝ) < Real.sqrt 2 := Real.sqrt_pos.2 (by norm_num)

/-- Length of a vector `(s * (1/√2) * d, t * (1/√2) * d)` with `s`, `t` sign
factors and `d ≥ 0` is exactly `d`. -/
theorem hypot_diag (s t d : ℝ) (hs : |s| = 1) (ht : |t| = 1) (hd : 0 ≤ d) :
    hypot (s * (1 / Real.sqrt 2) * d) (t * (1 / Real.sqrt 2) * d) = d := by
  have hs2 : s ^ 2 = 1 := by rw [← sq_abs, hs]; norm_num
  have ht2 : t ^ 2 = 1 := by rw [← sq_abs, ht]; norm_num
  have h2 : Real.sqrt 2 ^ 2 = 2 := Real.sq_sqrt (by norm_num)
  have hne : Real.sqrt 2 ≠ 0 := ne_of_gt sqrt_two_pos
  unfold hypot
  have : (s * (1 / Real.sqrt 2) * d) ^ 2 + (t * (1 / Real.sqrt 2) * d) ^ 2
      = d ^ 2 := by
    field_simp
    nlinarith [hs2, ht2, h2]
  rw [this, Real.sqrt_sq hd]

/-- The Diagonal45 step preserves the sign of each delta component in the
non-degenerate case and chooses the positive diagonal step consistent with
the inferred quadrant in the degenerate case. -/
theorem diag45Step_delta (p1 p2 : Point) :
    (diag45Step p1 p2).x - p1.x
      = signGE (p2.x - p1.x) * (1 / Real.sqrt 2) *
        (if hypot (p2.x - p1.x) (p2.y - p1.y) < 1e-8 then 1
         else hypot (p2.x - p1.x) (p2.y - p1.y))
    ∧ (diag45Step p1 p2).y - p1.y
      = signGE (p2.y - p1.y) * (1 / Real.sqrt 2) *
        (if hypot (p2.x - p1.x) (p2.y - p1.y) < 1e-8 then 1
         else hypot (p2.x - p1.x) (p2.y - p1.y)) := by
  by_cases h : hypot (p2.x - p1.x) (p2.y - p1.y) < 1e-8
  · simp only [if_pos h]
    simp [diag45Step, h]
  · simp only [if_neg h]
    simp [diag45Step, h]

/-- C1: Diagonal45 enforcement repositions `v2` so that `|Δx| = |Δy|` and
the new deltas carry the signs of the old ones (the diagonal of the
inferred quadrant); the resulting Euclidean distance `|v2 - v1|` is exactly
the old distance when that distance is not near zero (`≥ 1e-8`), and is
exactly one nominal unit step when it is near zero. -/
theorem diag45_enforcement_spec (p1 p2 : Point) :
    let p2' := diag45Step p1 p2
    |p2'.x - p1.x| = |p2'.y - p1.y|
    ∧ hypot (p2'.x - p1.x) (p2'.y - p1.y)
        = (if hypot (p2.x - p1.x) (p2.y - p1.y) < 1e-8 then 1
           else hypot (p2.x - p1.x) (p2.y - p1.y))
    ∧ (0 ≤ p2.x - p1.x ↔ 0 < p2'.x - p1.x)
    ∧ (0 ≤ p2.y - p1.y ↔ 0 < p2'.y - p1.y) := by
  intro p2'
  obtain ⟨hx, hy⟩ := diag45Step_delta p1 p2
  set D := (if hypot (p2.x - p1.x) (p2.y - p1.y) < 1e-8 then (1:ℝ)
            else hypot (p2.x - p1.x) (p2.y - p1.y)) with hD
  have hDpos : (0:ℝ) < D := by
    rw [hD]
    split
    · norm_num
    · have h8 : (1e-8 : ℝ) ≤ hypot (p2.x - p1.x) (p2.y - p1.y) :=
        not_lt.1 (by assumption)
      linarith [show (0:ℝ) < 1e-8 by norm_num]
  have hstep : (0:ℝ) < (1 / Real.sqrt 2) * D :=
    mul_pos (by positivity) hDpos
  refine ⟨?_, ?_, ?_, ?_⟩
  · rw [hx, hy, abs_mul, abs_mul, abs_mul, abs_mul, abs_signGE, abs_signGE]
  · show hypot (p2'.x - p1.x) (p2'.y - p1.y) = D
    rw [hx, hy,
      hypot_diag _ _ _ (abs_signGE _) (abs_signGE _) (le_of_lt hDpos)]
  · rw [hx]; unfold signGE
    constructor
    · intro h; rw [if_pos h]; linarith
    · intro h; by_contra hneg
      rw [if_neg hneg] at h; nlinarith
  · rw [hy]; unfold signGE
    constructor
    · intro h; rw [if_pos h]; linarith
    · intro h; by_contra hneg
      rw [if_neg hneg] at h; nlinarith

theorem signGE_of_nonneg {t : ℝ} (h : 0 ≤ t) : signGE t = 1 := if_pos h

theorem signGE_of_neg {t : ℝ} (h : t < 0) : signGE t = -1 := if_neg (not_le.2 h)

theorem signGE_cases (t : ℝ) : signGE t = 1 ∨ signGE t = -1 := by
  unfold signGE; split
  · exact Or.inl rfl
  · exact Or.inr rfl

/-- The sign selector of a freshly snapped diagonal delta agrees with the
original sign selector. -/
theorem signGE_snap (t D : ℝ) (hD : 0 < D) :
    signGE (signGE t * (1 / Real.sqrt 2) * D) = signGE t := by
  have hsD : 0 < (1 / Real.sqrt 2) * D := mul_pos (by positivity) hD
  rcases signGE_cases t with h | h <;> rw [h]
  · exact signGE_of_nonneg (by nlinarith)
  · exact signGE_of_neg (by nlinarith)

/-- Applying the Diagonal45 step twice gives the same `v2` as applying it
once. -/
theorem diag45Step_idem (p1 p2 : Point) :
    diag45Step p1 (diag45Step p1 p2) = diag45Step p1 p2 := by
  obtain ⟨hx, hy⟩ := diag45Step_delta p1 p2
  set q := diag45Step p1 p2 with hq
  set D := (if hypot (p2.x - p1.x) (p2.y - p1.y) < 1e-8 then (1:ℝ)
            else hypot (p2.x - p1.x) (p2.y - p1.y)) with hD
  have hD8 : (1e-8 : ℝ) ≤ D := by
    rw [hD]; split
    · norm_num
    · exact not_lt.1 (by assumption)
  have hDpos : (0:ℝ) < D := lt_of_lt_of_le (by norm_num) hD8
  have hdist' : hypot (q.x - p1.x) (q.y - p1.y) = D := by
    rw [hx, hy]
    exact hypot_diag _ _ _ (abs_signGE _) (abs_signGE _) (le_of_lt hDpos)
  have hnd2 : ¬ hypot (q.x - p1.x) (q.y - p1.y) < 1e-8 := by
    rw [hdist']; exact not_lt.2 hD8
  have hsx : signGE (q.x - p1.x) = signGE (p2.x - p1.x) := by
    rw [hx]; exact signGE_snap _ _ hDpos
  have hsy : signGE (q.y - p1.y) = signGE (p2.y - p1.y) := by
    rw [hy]; exact signGE_snap _ _ hDpos
  obtain ⟨hx2, hy2⟩ := diag45Step_delta p1 q
  rw [if_neg hnd2] at hx2 hy2
  rw [Point.ext_iff']
  constructor
  · have : (diag45Step p1 q).x - p1.x = q.x - p1.x := by
      rw [hx2, hdist', hsx, hx]
    linarith
  · have : (diag45Step p1 q).y - p1.y = q.y - p1.y := by
      rw [hy2, hdist', hsy, hy]
    linarith

theorem fixedLengthStep_delta (L : ℝ) (p1 p2 : Point) :
    (fixedLengthStep L p1 p2).x - p1.x
      = (if hypot (p2.x - p1.x) (p2.y - p1.y) = 0 then L
         else (p2.x - p1.x) * (L / hypot (p2.x - p1.x) (p2.y - p1.y)))
    ∧ (fixedLengthStep L p1 p2).y - p1.y
      = (if hypot (p2.x - p1.x) (p2.y - p1.y) = 0 then 0
         else (p2.y - p1.y) * (L / hypot (p2.x - p1.x) (p2.y - p1.y))) := by
  by_cases h : hypot (p2.x - p1.x) (p2.y - p1.y) = 0
  · simp only [if_pos h]
    simp [fixedLengthStep, h]
  · simp only [if_neg h]
    simp [fixedLengthStep, h]

theorem hypot_right_zero (t : ℝ) : hypot t 0 = |t| := by
  unfold hypot
  rw [show t ^ 2 + 0 ^ 2 = t ^ 2 by ring, Real.sqrt_sq_eq_abs]

/-- After one FixedLength enforcement with `L ≥ 0`, the distance from `v1`
is exactly `L`. -/
theorem fixedLengthStep_dist (L : ℝ) (hL : 0 ≤ L) (p1 p2 : Point) :
    hypot ((fixedLengthStep L p1 p2).x - p1.x)
          ((fixedLengthStep L p1 p2).y - p1.y) = L := by
  obtain ⟨hx, hy⟩ := fixedLengthStep_delta L p1 p2
  by_cases h : hypot (p2.x - p1.x) (p2.y - p1.y) = 0
  · rw [hx, hy, if_pos h, if_pos h, hypot_right_zero, abs_of_nonneg hL]
  · rw [hx, hy, if_neg h, if_neg h]
    rw [show (p2.x - p1.x) * (L / hypot (p2.x - p1.x) (p2.y - p1.y))
          = (L / hypot (p2.x - p1.x) (p2.y - p1.y)) * (p2.x - p1.x) by ring,
        show (p2.y - p1.y) * (L / hypot (p2.x - p1.x) (p2.y - p1.y))
          = (L / hypot (p2.x - p1.x) (p2.y - p1.y)) * (p2.y - p1.y) by ring,
        hypot_mul]
    have hpos : 0 < hypot (p2.x - p1.x) (p2.y - p1.y) :=
      lt_of_le_of_ne (hypot_nonneg _ _) (Ne.symm h)
    rw [abs_div, abs_of_nonneg hL, abs_of_pos hpos]
    field_simp

/-- Applying the FixedLength step twice (with a legal, nonnegative length)
gives the same `v2` as applying it once. -/
theorem fixedLengthStep_idem (L : ℝ) (hL : 0 ≤ L) (p1 p2 : Point) :
    fixedLengthStep L p1 (fixedLengthStep L p1 p2) = fixedLengthStep L p1 p2 := by
  set q := fixedLengthStep L p1 p2 with hq
  have hdist : hypot (q.x - p1.x) (q.y - p1.y) = L := fixedLengthStep_dist L hL p1 p2
  obtain ⟨hx, hy⟩ := fixedLengthStep_delta L p1 p2
  obtain ⟨hx2, hy2⟩ := fixedLengthStep_delta L p1 q
  rcases eq_or_lt_of_le hL with hL0 | hLpos
  · -- L = 0: both applications place v2 at p1 (x-delta L = 0, y-delta 0)
    rw [Point.ext_iff']
    have hq0 : q.x - p1.x = 0 ∧ q.y - p1.y = 0 := by
      constructor
      · rw [hx]; split <;> simp [← hL0]
      · rw [hy]; split <;> simp [← hL0]
    have hz : hypot (q.x - p1.x) (q.y - p1.y) = 0 := by
      rw [hq0.1, hq0.2, hypot_right_zero, abs_zero]
    rw [if_pos hz] at hx2 hy2
    constructor
    · have : (fixedLengthStep L p1 q).x - p1.x = q.x - p1.x := by
        rw [hx2, hq0.1, ← hL0]
      linarith
    · have : (fixedLengthStep L p1 q).y - p1.y = q.y - p1.y := by
        rw [hy2, hq0.2]
      linarith
  · -- L > 0: the second application scales by L / L = 1
    have hLne : hypot (q.x - p1.x) (q.y - p1.y) ≠ 0 := by
      rw [hdist]; exact ne_of_gt hLpos
    rw [if_neg hLne] at hx2 hy2
    rw [hdist] at hx2 hy2
    rw [div_self (ne_of_gt hLpos)] at hx2 hy2
    rw [Point.ext_iff']
    constructor
    · have : (fixedLengthStep L p1 q).x - p1.x = q.x - p1.x := by
        rw [hx2]; ring
      linarith
    · have : (fixedLengthStep L p1 q).y - p1.y = q.y - p1.y := by
        rw [hy2]; ring
      linarith

/-- Dispatch of `_enforce_edge_constraint` on the constraint tag: the new
position of `v2` as a function of the constraint and the endpoint pair
(`NONE` leaves `v2` untouched and merely stops propagation). -/
noncomputable def constraintStep (ct : ConstraintType) (L : ℝ) (p1 p2 : Point) :
    Point :=
  match ct with
  | .NONE => p2
  | .VERTICAL => verticalStep p1 p2
  | .DIAGONAL_45 => diag45Step p1 p2
  | .FIXED_LENGTH => fixedLengthStep L p1 p2

/-- C7: for each of the three real constraints (Vertical, Diagonal45,
FixedLength with its data-model-legal nonnegative length) and any endpoint
positions, applying the enforcement step twice in succession leaves `v2` at
exactly the same position as applying it once. -/
theorem constraint_enforcement_idempotent (ct : ConstraintType) (L : ℝ)
    (hct : ct ≠ ConstraintType.NONE) (hL : 0 ≤ L) (p1 p2 : Point) :
    constraintStep ct L p1 (constraintStep ct L p1 p2)
      = constraintStep ct L p1 p2 := by
  cases ct with
  | NONE => exact absurd rfl hct
  | VERTICAL => rfl
  | DIAGONAL_45 => exact diag45Step_idem p1 p2
  | FIXED_LENGTH => exact fixedLengthStep_idem L hL p1 p2

/-- Witness for `constraint_enforcement_idempotent` with the FixedLength
constraint, `L = 7`, at `v1 = (0,0)`, `v2 = (3,4)`. -/
theorem constraint_enforcement_idempotent_witness :
    constraintStep ConstraintType.FIXED_LENGTH 7 ⟨0, 0⟩
        (constraintStep ConstraintType.FIXED_LENGTH 7 ⟨0, 0⟩ ⟨3, 4⟩)
      = constraintStep ConstraintType.FIXED_LENGTH 7 ⟨0, 0⟩ ⟨3, 4⟩ :=
  constraint_enforcement_idempotent ConstraintType.FIXED_LENGTH 7
    (by decide) (by norm_num) ⟨0, 0⟩ ⟨3, 4⟩

/-! ### Angle normalization (`norm_angle`, src/geometry.py lines 16-22)

The Python function runs two `while` loops: the first adds `2π` while the
angle is negative, the second subtracts `2π` while it is `≥ 2π`.  They are
embedded as two well-founded recursions; the termination measures make the
totality claim of the spec a theorem of the embedding. -/

/-- Termination measure step for the first loop of `norm_angle`. -/
theorem ceil_measure_lt (a : ℝ) (h : a < 0) :
    Nat.ceil (-(a + 2 * Real.pi) / (2 * Real.pi)) < Nat.ceil (-a / (2 * Real.pi)) := by
  have h2pi : (0:ℝ) < 2 * Real.pi := by positivity
  have hx : (0:ℝ) < -a / (2 * Real.pi) := div_pos (by linarith) h2pi
  have h1 : 1 ≤ Nat.ceil (-a / (2 * Real.pi)) := Nat.one_le_ceil_iff.2 hx
  have heq : -(a + 2 * Real.pi) / (2 * Real.pi) = -a / (2 * Real.pi) - 1 := by
    field_simp
    ring
  rw [heq]
  have hle : Nat.ceil (-a / (2 * Real.pi) - 1)
      ≤ Nat.ceil (-a / (2 * Real.pi)) - 1 := by
    rw [Nat.ceil_le]
    have hcast : ((Nat.ceil (-a / (2 * Real.pi)) - 1 : ℕ) : ℝ)
        = (Nat.ceil (-a / (2 * Real.pi)) : ℝ) - 1 := by
      push_cast [h1]
      ring
    rw [hcast]
    linarith [Nat.le_ceil (-a / (2 * Real.pi))]
  omega

/-- Termination measure step for the second loop of `norm_angle`. -/
theorem floor_measure_lt (a : ℝ) (h : 2 * Real.pi ≤ a) :
    Nat.floor ((a - 2 * Real.pi) / (2 * Real.pi)) < Nat.floor (a / (2 * Real.pi)) := by
  have h2pi : (0:ℝ) < 2 * Real.pi := by positivity
  have heq : (a - 2 * Real.pi) / (2 * Real.pi) = a / (2 * Real.pi) - 1 := by
    field_simp
  rw [heq]
  have h0 : (0:ℝ) ≤ a / (2 * Real.pi) - 1 := by
    have hx : (1:ℝ) ≤ a / (2 * Real.pi) := (one_le_div h2pi).2 h
    linarith
  rw [Nat.floor_lt h0]
  have := Nat.lt_floor_add_one (a / (2 * Real.pi))
  linarith

/-- First loop of `norm_angle`: `while a < 0: a += 2π`. -/
noncomputable def normAngleAdd (a : ℝ) : ℝ :=
  if h : a < 0 then normAngleAdd (a + 2 * Real.pi) else a
termination_by Nat.ceil (-a / (2 * Real.pi))
decreasing_by
  simp_wf
  rw [show -(2 * Real.pi) + -a = -(a + 2 * Real.pi) by ring]
  exact ceil_measure_lt a h

/-- Second loop of `norm_angle`: `while a >= 2π: a -= 2π`. -/
noncomputable def normAngleSub (a : ℝ) : ℝ :=
  if h : 2 * Real.pi ≤ a then normAngleSub (a - 2 * Real.pi) else a
termination_by Nat.floor (a / (2 * Real.pi))
decreasing_by
  simp_wf
  exact floor_measure_lt a h

/-- `norm_angle` (src/geometry.py): normalize an angle into `[0, 2π)`. -/
noncomputable def norm_angle (a : ℝ) : ℝ := normAngleSub (normAngleAdd a)

theorem normAngleAdd_spec (a : ℝ) :
    0 ≤ normAngleAdd a ∧ ∃ k : ℤ, normAngleAdd a = a + 2 * Real.pi * k := by
  by_cases h : a < 0
  · rw [normAngleAdd.eq_def, dif_pos h]
    obtain ⟨h0, k, hk⟩ := normAngleAdd_spec (a + 2 * Real.pi)
    exact ⟨h0, k + 1, by rw [hk]; push_cast; ring⟩
  · rw [normAngleAdd.eq_def, dif_neg h]
    exact ⟨le_of_not_lt h, 0, by push_cast; ring⟩
termination_by Nat.ceil (-a / (2 * Real.pi))
decreasing_by
  simp_wf
  rw [show -(2 * Real.pi) + -a = -(a + 2 * Real.pi) by ring]
  exact ceil_measure_lt a h

theorem normAngleAdd_lt (a : ℝ) (h : a < 2 * Real.pi) :
    normAngleAdd a < 2 * Real.pi := by
  by_cases h0 : a < 0
  · rw [normAngleAdd.eq_def, dif_pos h0]
    exact normAngleAdd_lt (a + 2 * Real.pi) (by linarith)
  · rw [normAngleAdd.eq_def, dif_neg h0]
    exact h
termination_by Nat.ceil (-a / (2 * Real.pi))
decreasing_by
  simp_wf
  rw [show -(2 * Real.pi) + -a = -(a + 2 * Real.pi) by ring]
  exact ceil_measure_lt a h0

theorem normAngleSub_spec (a : ℝ) :
    normAngleSub a < 2 * Real.pi
    ∧ (0 ≤ a → 0 ≤ normAngleSub a)
    ∧ ∃ k : ℤ, normAngleSub a = a + 2 * Real.pi * k := by
  by_cases h : 2 * Real.pi ≤ a
  · rw [normAngleSub.eq_def, dif_pos h]
    obtain ⟨hlt, h0, k, hk⟩ := normAngleSub_spec (a - 2 * Real.pi)
    exact ⟨hlt, fun _ => h0 (by linarith), k - 1, by rw [hk]; push_cast; ring⟩
  · rw [normAngleSub.eq_def, dif_neg h]
    exact ⟨lt_of_not_le h, fun h0 => h0, 0, by push_cast; ring⟩
termination_by Nat.floor (a / (2 * Real.pi))
decreasing_by
  simp_wf
  exact floor_measure_lt a h

/-- C9: `norm_angle` is a total function (its two loops terminate on every
real input — they are well-founded recursions here) whose result lies in
`[0, 2π)` and is congruent to the input modulo `2π`. -/
theorem norm_angle_spec (a : ℝ) :
    0 ≤ norm_angle a ∧ norm_angle a < 2 * Real.pi
    ∧ ∃ k : ℤ, norm_angle a = a + 2 * Real.pi * k := by
  obtain ⟨h0, k₁, hk₁⟩ := normAngleAdd_spec a
  obtain ⟨hlt, hge, k₂, hk₂⟩ := normAngleSub_spec (normAngleAdd a)
  refine ⟨hge h0, hlt, k₁ + k₂, ?_⟩
  show normAngleSub (normAngleAdd a) = a + 2 * Real.pi * (k₁ + k₂ : ℤ)
  rw [hk₂, hk₁]
  push_cast
  ring

/-! ### The polygon state

Python vertices are mutable objects compared by identity; they are embedded
as stable natural-number ids.  `PolyState.vertices` is the cyclic vertex
list `polygon.vertices` (a list of ids), `pos`/`cont` give each id its
mutable position and continuity, and `edges` is `polygon.edges`.  A Bézier
edge's control points (`c1`, `c2`) live inline in the edge record: in the
source they are `Vertex` objects created privately for the edge and never
aliased by the vertex list. -/

/-- One edge of the polygon: endpoint ids, variant tag, Bézier control
points (meaningful when `type = BEZIER`), and the optional constraint of a
Line edge. -/
structure EdgeRec where
  v1 : ℕ
  v2 : ℕ
  type : EdgeType
  c1 : Point
  c2 : Point
  constraint_type : ConstraintType
  constraint_value : Option ℝ

/-- Modelled from the spec: a freshly constructed plain `Edge(v1, v2)` of
the (missing) model module is a Line edge with no constraint; control points
are unused for Line edges and default to the origin. -/
def mkEdge (a b : ℕ) : EdgeRec :=
  ⟨a, b, EdgeType.LINE, ⟨0, 0⟩, ⟨0, 0⟩, ConstraintType.NONE, none⟩

/-- Placeholder edge used for (never-taken, well-formedness-excluded)
out-of-range list accesses. -/
def dfltEdge : EdgeRec := mkEdge 0 0

/-- The polygon graph: the cyclic vertex-id list, the position and
continuity of each vertex id, and the edge list. -/
structure PolyState where
  vertices : List ℕ
  pos : ℕ → Point
  cont : ℕ → ContinuityType
  edges : List EdgeRec

/-- Vertex id stored at index `k` of the cyclic vertex list. -/
def idAt (s : PolyState) (k : ℕ) : ℕ := s.vertices.getD k 0

/-- Edge record stored at index `k` of the edge list. -/
def edgeAt (s : PolyState) (k : ℕ) : EdgeRec := s.edges.getD k dfltEdge

/-- Write a vertex position (Python `v.x = ...; v.y = ...`). -/
def setPos (s : PolyState) (i : ℕ) (p : Point) : PolyState :=
  { s with pos := Function.update s.pos i p }

/-- Write a vertex continuity (Python `vertex.continuity = ...`). -/
def setCont (s : PolyState) (i : ℕ) (c : ContinuityType) : PolyState :=
  { s with cont := Function.update s.cont i c }

/-- In-place update of the edge at index `k` (Python mutates the edge
object held in `polygon.edges`). -/
def modifyIdx {α : Type} : List α → ℕ → (α → α) → List α
  | [], _, _ => []
  | a :: t, 0, f => f a :: t
  | a :: t, k + 1, f => a :: modifyIdx t k f

/-- Update the edge at index `k` of the state. -/
def modifyEdge (s : PolyState) (k : ℕ) (f : EdgeRec → EdgeRec) : PolyState :=
  { s with edges := modifyIdx s.edges k f }

theorem modifyIdx_length {α : Type} (l : List α) (k : ℕ) (f : α → α) :
    (modifyIdx l k f).length = l.length := by
  induction l generalizing k with
  | nil => rfl
  | cons a t ih =>
    cases k with
    | zero => rfl
    | succ k => simp [modifyIdx, ih]

theorem modifyIdx_getD_self {α : Type} (l : List α) (k : ℕ) (f : α → α)
    (d : α) (hk : k < l.length) :
    (modifyIdx l k f).getD k d = f (l.getD k d) := by
  induction l generalizing k with
  | nil => simp at hk
  | cons a t ih =>
    cases k with
    | zero => rfl
    | succ k =>
      simp only [modifyIdx, List.getD_cons_succ]
      exact ih k (by simpa using hk)

theorem modifyIdx_getD_ne {α : Type} (l : List α) (k j : ℕ) (f : α → α)
    (d : α) (hne : j ≠ k) :
    (modifyIdx l k f).getD j d = l.getD j d := by
  induction l generalizing k j with
  | nil => rfl
  | cons a t ih =>
    cases k with
    | zero =>
      cases j with
      | zero => exact absurd rfl hne
      | succ j => rfl
    | succ k =>
      cases j with
      | zero => rfl
      | succ j =>
        simp only [modifyIdx, List.getD_cons_succ]
        exact ih k j (fun h => hne (by rw [h]))

/-- `_edge_between` (src/graphics/polygon_item.py line 296): look up the
edge joining two vertex ids, trying both orientations.  The source consults
`polygon.edges_dict`, rebuilt by `_sync_edges_dict` from `polygon.edges`
with both orientations as keys; for well-formed polygons (each endpoint
pair on at most one edge) that lookup returns the same edge as a first-match
scan of the edge list. -/
def edgeBetween (s : PolyState) (a b : ℕ) : Option EdgeRec :=
  s.edges.find? (fun e =>
    decide ((e.v1 = a ∧ e.v2 = b) ∨ (e.v1 = b ∧ e.v2 = a)))

/-- `_enforce_edge_constraint` (src/graphics/polygon_item.py lines 420-468):
with `v1` fixed, reposition `v2` according to the constraint of the edge
joining them; the returned flag says whether propagation continues.  A
`FIXED_LENGTH` edge is assumed to carry a numeric value (the source would
raise on `None`; `getD 0` stands in for that never-taken case). -/
noncomputable def enforceEdgeConstraint (s : PolyState) (a b : ℕ) :
    PolyState × Bool :=
  match edgeBetween s a b with
  | none => (s, false)
  | some e =>
    match e.constraint_type with
    | ConstraintType.NONE => (s, false)
    | ConstraintType.VERTICAL =>
        (setPos s b (verticalStep (s.pos a) (s.pos b)), true)
    | ConstraintType.FIXED_LENGTH =>
        (setPos s b
          (fixedLengthStep (e.constraint_value.getD 0) (s.pos a) (s.pos b)),
         true)
    | ConstraintType.DIAGONAL_45 =>
        (setPos s b (diag45Step (s.pos a) (s.pos b)), true)

theorem enforceEdgeConstraint_vertices (s : PolyState) (a b : ℕ) :
    (enforceEdgeConstraint s a b).1.vertices = s.vertices := by
  unfold enforceEdgeConstraint
  split
  · rfl
  · split <;> rfl

theorem enforceEdgeConstraint_edges (s : PolyState) (a b : ℕ) :
    (enforceEdgeConstraint s a b).1.edges = s.edges := by
  unfold enforceEdgeConstraint
  split
  · rfl
  · split <;> rfl

theorem enforceEdgeConstraint_cont (s : PolyState) (a b : ℕ) :
    (enforceEdgeConstraint s a b).1.cont = s.cont := by
  unfold enforceEdgeConstraint
  split
  · rfl
  · split <;> rfl

/-- Constraint enforcement writes only the position of `v2`. -/
theorem enforceEdgeConstraint_pos_ne (s : PolyState) (a b w : ℕ)
    (hw : w ≠ b) :
    (enforceEdgeConstraint s a b).1.pos w = s.pos w := by
  unfold enforceEdgeConstraint
  split
  · rfl
  · split <;> simp [setPos, Function.update_noteq hw]

/-- Enforcement either leaves the state unchanged with a stop signal, or
reports that propagation continues. -/
theorem enforceEdgeConstraint_cases (s : PolyState) (a b : ℕ) :
    enforceEdgeConstraint s a b = (s, false)
    ∨ (enforceEdgeConstraint s a b).2 = true := by
  unfold enforceEdgeConstraint
  split
  · exact Or.inl rfl
  · split
    · exact Or.inl rfl
    all_goals exact Or.inr rfl

/-! ### Adjacency lookup and geometric helpers -/

/-- `adjacent_edges_of_vertex` (src/graphics/polygon_item.py lines 470-511):
returns the indices of the previous edge (first edge whose `v2` is the
vertex) and the next edge (first edge whose `v1` is the vertex), with an
index-arithmetic inference fallback for a missing side.  The source returns
`(edge, index)` pairs where the index is the first list position of the
found edge object; the records here are read back off the list via the
index. -/
def adjacent_edges_of_vertex (s : PolyState) (v : ℕ) :
    Option ℕ × Option ℕ :=
  if v ∈ s.vertices then
    let n_edges := s.edges.length
    if n_edges = 0 then (none, none)
    else
      let prev0 := s.edges.findIdx? (fun e => e.v2 == v)
      let next0 := s.edges.findIdx? (fun e => e.v1 == v)
      let n := s.vertices.length
      let idx := s.vertices.indexOf v
      let inferPrev := (idx + n - 1) % n
      let inferNext := idx % n
      let prev1 := match prev0 with
        | some p => some p
        | none => if inferPrev < n_edges then some inferPrev else none
      let next1 := match next0 with
        | some p => some p
        | none => if inferNext < n_edges then some inferNext else none
      (prev1, next1)
  else (none, none)

/-- `unit` (src/geometry.py lines 4-8): normalize a vector, refusing
near-zero input; returns the optional unit direction and the length the
caller sees (`0.0` in the refused case, as in the source). -/
noncomputable def unitv (x y : ℝ) : Option (ℝ × ℝ) × ℝ :=
  let l := hypot x y
  if l < 1e-8 then (none, 0) else (some (x / l, y / l), l)

/-- `rot90_ccw` (src/geometry.py). -/
def rot90_ccw (v : ℝ × ℝ) : ℝ × ℝ := (-v.2, v.1)

/-- `rot90_cw` (src/geometry.py). -/
def rot90_cw (v : ℝ × ℝ) : ℝ × ℝ := (v.2, -v.1)

/-- The inner `neighbour_tangent_for_arc` closure of
`_arc_tangent_at_vertex` (src/graphics/polygon_item.py lines 600-628):
direction of the neighbouring edge at the shared arc endpoint, without the
two-arc bisector special case of the `geometry.py` variant. -/
noncomputable def neighbourTangentForArc (s : PolyState) (idx : ℕ)
    (v1 v2 : ℕ) (atV1Local : Bool) : Option (ℝ × ℝ) :=
  let n_edges := s.edges.length
  if atV1Local then
    let ne := edgeAt s ((idx + n_edges - 1) % n_edges)
    let vertex := v1
    let d0 : ℝ × ℝ :=
      if ne.v2 = vertex then
        ((s.pos vertex).x - (s.pos ne.v1).x, (s.pos vertex).y - (s.pos ne.v1).y)
      else
        ((s.pos ne.v2).x - (s.pos vertex).x, (s.pos ne.v2).y - (s.pos vertex).y)
    let d : ℝ × ℝ :=
      if ne.type = EdgeType.BEZIER then
        ((s.pos vertex).x - ne.c2.x, (s.pos vertex).y - ne.c2.y)
      else d0
    (unitv d.1 d.2).1
  else
    let ne := edgeAt s ((idx + 1) % n_edges)
    let vertex := v2
    let d0 : ℝ × ℝ :=
      if ne.v1 = vertex then
        ((s.pos ne.v2).x - (s.pos vertex).x, (s.pos ne.v2).y - (s.pos vertex).y)
      else
        ((s.pos vertex).x - (s.pos ne.v1).x, (s.pos vertex).y - (s.pos ne.v1).y)
    let d : ℝ × ℝ :=
      if ne.type = EdgeType.BEZIER then
        (ne.c1.x - (s.pos vertex).x, ne.c1.y - (s.pos vertex).y)
      else d0
    (unitv d.1 d.2).1

/-- `_arc_tangent_at_vertex` (src/graphics/polygon_item.py lines 565-663):
tangent of the arc edge at one of its endpoints, recomputing the arc circle
exactly as the renderer does.  The source recovers the index of the edge
object in `polygon.edges` via `edges.index(arc_edge)`; here that is the
first position holding the record. -/
noncomputable def arcTangentAtVertex (s : PolyState) (arcEdge : EdgeRec)
    (atV1 : Bool) : Option (ℝ × ℝ) :=
  if arcEdge.type ≠ EdgeType.ARC then none
  else
    match s.edges.findIdx? (fun e =>
        decide (e.v1 = arcEdge.v1 ∧ e.v2 = arcEdge.v2
                ∧ e.type = arcEdge.type)) with
    | none => none
    | some idx =>
      let v1 := arcEdge.v1
      let v2 := arcEdge.v2
      let x1 := (s.pos v1).x
      let y1 := (s.pos v1).y
      let x2 := (s.pos v2).x
      let y2 := (s.pos v2).y
      let uc := unitv (x2 - x1) (y2 - y1)
      match uc.1 with
      | none => none
      | some chord_u =>
        if uc.2 < 1e-8 then none
        else
          let g1v1 : Bool :=
            if s.cont v1 = ContinuityType.G1 then true else false
          let g1v2pre : Bool :=
            if s.cont v2 = ContinuityType.G1 then true else false
          -- "only one end may be G1": with both set, honor only v1
          let g1v2 : Bool := if g1v1 && g1v2pre then false else g1v2pre
          let Mx := (x1 + x2) * 0.5
          let My := (y1 + y2) * 0.5
          let nc := rot90_ccw chord_u
          let geo : (ℝ × ℝ) × ℝ × Bool :=
            if g1v1 || g1v2 then
              let t? := if g1v1 then neighbourTangentForArc s idx v1 v2 true
                        else neighbourTangentForArc s idx v1 v2 false
              let P : ℝ × ℝ := if g1v1 then (x1, y1) else (x2, y2)
              match t? with
              | none => ((Mx, My), uc.2 * 0.5, true)
              | some t =>
                let nt := rot90_ccw t
                let mx := Mx - P.1
                let my := My - P.2
                let det := nt.1 * (-nc.2) - nt.2 * (-nc.1)
                if 1e-8 < |det| then
                  let sc := (mx * (-nc.2) - my * (-nc.1)) / det
                  let Cx := P.1 + sc * nt.1
                  let Cy := P.2 + sc * nt.2
                  let R := hypot (P.1 - Cx) (P.2 - Cy)
                  let pc : Bool :=
                    match (unitv (P.1 - Cx) (P.2 - Cy)).1 with
                    | none => true
                    | some ru =>
                      let tccw := rot90_ccw ru
                      let tcw := rot90_cw ru
                      let dotccw := tccw.1 * t.1 + tccw.2 * t.2
                      let dotcw := tcw.1 * t.1 + tcw.2 * t.2
                      decide (dotcw ≤ dotccw)
                  ((Cx, Cy), R, pc)
                else ((Mx, My), uc.2 * 0.5, true)
            else ((Mx, My), uc.2 * 0.5, true)
          let C := geo.1
          let prefer_ccw := geo.2.2
          let r : ℝ × ℝ :=
            if atV1 then (x1 - C.1, y1 - C.2) else (x2 - C.1, y2 - C.2)
          match (unitv r.1 r.2).1 with
          | none => none
          | some ru =>
            if prefer_ccw then some (rot90_ccw ru)
            else some (-(rot90_ccw ru).1, -(rot90_ccw ru).2)

/-! ### The continuity enforcer (vertex-triggered entry point)

`enforce_vertex_continuity_from_vertex` (src/graphics/polygon_item.py lines
727-862): adjust the neighbouring Bézier handles so the vertex's requested
continuity holds; only control-point positions are ever written.  Each case
of the source's `if`/`elif` chain (keyed by the type pair of the adjacent
edges) is embedded as its own definition. -/

/-- Case A (both adjacent edges Bézier): G1 aligns the two handle offsets
through the vertex preserving each handle's own length; C1 writes the exact
point reflection `next.c1 = 2·v − prev.c2` and then recomputes `prev.c2`
from the freshly written `next.c1` (leaving it at its old value). -/
noncomputable def contCaseA (s : PolyState) (v pi ni : ℕ) : PolyState :=
  let prevE := edgeAt s pi
  let nextE := edgeAt s ni
  let cont := s.cont v
  let vx := (s.pos v).x
  let vy := (s.pos v).y
  let pc2 := prevE.c2
  let nc1 := nextE.c1
  let pvx := vx - pc2.x
  let pvy := vy - pc2.y
  let prev_len := hypot pvx pvy
  let nvx := nc1.x - vx
  let nvy := nc1.y - vy
  let next_len := hypot nvx nvy
  if cont = ContinuityType.G1 then
    if 1e-8 < prev_len then
      let ux := pvx / prev_len
      let uy := pvy / prev_len
      let s1 := modifyEdge s ni (fun e =>
        { e with c1 := ⟨vx + ux * next_len, vy + uy * next_len⟩ })
      modifyEdge s1 pi (fun e =>
        { e with c2 := ⟨vx - ux * prev_len, vy - uy * prev_len⟩ })
    else if 1e-8 < next_len then
      let ux := nvx / next_len
      let uy := nvy / next_len
      modifyEdge s pi (fun e =>
        { e with c2 := ⟨vx - ux * prev_len, vy - uy * prev_len⟩ })
    else s
  else if cont = ContinuityType.C1 then
    let newC1 : Point := ⟨2 * vx - pc2.x, 2 * vy - pc2.y⟩
    -- the second write reads the freshly written next.c1
    let newC2 : Point := ⟨2 * vx - newC1.x, 2 * vy - newC1.y⟩
    let s1 := modifyEdge s ni (fun e => { e with c1 := newC1 })
    modifyEdge s1 pi (fun e => { e with c2 := newC2 })
  else s

/-- Case B1 (prev Bézier, next Arc): rotate `prev.c2` onto the arc tangent
at the shared vertex, preserving the handle length. -/
noncomputable def contCaseB1 (s : PolyState) (v pi ni : ℕ) : PolyState :=
  let prevE := edgeAt s pi
  let nextE := edgeAt s ni
  let cont := s.cont v
  let vx := (s.pos v).x
  let vy := (s.pos v).y
  let pc2 := prevE.c2
  let pvx := vx - pc2.x
  let pvy := vy - pc2.y
  let prev_len := hypot pvx pvy
  if cont = ContinuityType.G1 ∧ 1e-8 < prev_len then
    match arcTangentAtVertex s nextE true with
    | some t => modifyEdge s pi (fun e =>
        { e with c2 := ⟨vx - t.1 * prev_len, vy - t.2 * prev_len⟩ })
    | none => s
  else s

/-- Case B2 (prev Bézier, next Line): G1 aligns `prev.c2` with the line
direction preserving the handle length; C1 makes `v − prev.c2` equal the
line vector exactly. -/
noncomputable def contCaseB2 (s : PolyState) (v pi ni : ℕ) : PolyState :=
  let prevE := edgeAt s pi
  let nextE := edgeAt s ni
  let cont := s.cont v
  let vx := (s.pos v).x
  let vy := (s.pos v).y
  let other := nextE.v2
  let lvx := (s.pos other).x - vx
  let lvy := (s.pos other).y - vy
  let l_len := hypot lvx lvy
  let pc2 := prevE.c2
  let pvx := vx - pc2.x
  let pvy := vy - pc2.y
  let prev_len := hypot pvx pvy
  if l_len < 1e-8 then s
  else if cont = ContinuityType.G1 then
    let ux := lvx / l_len
    let uy := lvy / l_len
    modifyEdge s pi (fun e =>
      { e with c2 := ⟨vx - ux * prev_len, vy - uy * prev_len⟩ })
  else if cont = ContinuityType.C1 then
    modifyEdge s pi (fun e => { e with c2 := ⟨vx - lvx, vy - lvy⟩ })
  else s

/-- Case C1 (prev Arc, next Bézier): mirror of case B1 on the next side. -/
noncomputable def contCaseC1 (s : PolyState) (v pi ni : ℕ) : PolyState :=
  let prevE := edgeAt s pi
  let nextE := edgeAt s ni
  let cont := s.cont v
  let vx := (s.pos v).x
  let vy := (s.pos v).y
  let nc1 := nextE.c1
  let nvx := nc1.x - vx
  let nvy := nc1.y - vy
  let next_len := hypot nvx nvy
  if cont = ContinuityType.G1 ∧ 1e-8 < next_len then
    match arcTangentAtVertex s prevE false with
    | some t => modifyEdge s ni (fun e =>
        { e with c1 := ⟨vx + t.1 * next_len, vy + t.2 * next_len⟩ })
    | none => s
  else s

/-- Case C2 (prev Line, next Bézier): mirror of case B2 on the next side. -/
noncomputable def contCaseC2 (s : PolyState) (v pi ni : ℕ) : PolyState :=
  let prevE := edgeAt s pi
  let nextE := edgeAt s ni
  let cont := s.cont v
  let vx := (s.pos v).x
  let vy := (s.pos v).y
  let other := prevE.v1
  let lvx := vx - (s.pos other).x
  let lvy := vy - (s.pos other).y
  let l_len := hypot lvx lvy
  let nc1 := nextE.c1
  let nvx := nc1.x - vx
  let nvy := nc1.y - vy
  let next_len := hypot nvx nvy
  if l_len < 1e-8 then s
  else if cont = ContinuityType.G1 then
    let ux := lvx / l_len
    let uy := lvy / l_len
    modifyEdge s ni (fun e =>
      { e with c1 := ⟨vx + ux * next_len, vy + uy * next_len⟩ })
  else if cont = ContinuityType.C1 then
    modifyEdge s ni (fun e => { e with c1 := ⟨vx + lvx, vy + lvy⟩ })
  else s

/-- `enforce_vertex_continuity_from_vertex` proper: resolve the adjacent
edges, bail out on missing adjacency or a `G0`/absent continuity, then
dispatch on the (prev type, next type) pair exactly as the source's
`if`/`elif` chain does; any pair not matching a case (e.g. Line-Line) falls
through with no mutation. -/
noncomputable def enforce_vertex_continuity_from_vertex (s : PolyState)
    (v : ℕ) : PolyState :=
  match adjacent_edges_of_vertex s v with
  | (some pi, some ni) =>
    let prevE := edgeAt s pi
    let nextE := edgeAt s ni
    if s.cont v = ContinuityType.G0 then s
    else if prevE.type = EdgeType.BEZIER ∧ nextE.type = EdgeType.BEZIER then
      contCaseA s v pi ni
    else if prevE.type = EdgeType.BEZIER ∧ nextE.type = EdgeType.ARC then
      contCaseB1 s v pi ni
    else if prevE.type = EdgeType.BEZIER ∧ ¬ nextE.type = EdgeType.BEZIER then
      contCaseB2 s v pi ni
    else if prevE.type = EdgeType.ARC ∧ nextE.type = EdgeType.BEZIER then
      contCaseC1 s v pi ni
    else if ¬ prevE.type = EdgeType.BEZIER ∧ nextE.type = EdgeType.BEZIER then
      contCaseC2 s v pi ni
    else s
  | _ => s

theorem contCaseA_frame (s : PolyState) (v pi ni : ℕ) :
    (contCaseA s v pi ni).pos = s.pos
    ∧ (contCaseA s v pi ni).vertices = s.vertices
    ∧ (contCaseA s v pi ni).cont = s.cont := by
  unfold contCaseA
  dsimp only
  repeat' split
  all_goals exact ⟨rfl, rfl, rfl⟩

theorem contCaseB1_frame (s : PolyState) (v pi ni : ℕ) :
    (contCaseB1 s v pi ni).pos = s.pos
    ∧ (contCaseB1 s v pi ni).vertices = s.vertices
    ∧ (contCaseB1 s v pi ni).cont = s.cont := by
  unfold contCaseB1
  dsimp only
  repeat' split
  all_goals exact ⟨rfl, rfl, rfl⟩

theorem contCaseB2_frame (s : PolyState) (v pi ni : ℕ) :
    (contCaseB2 s v pi ni).pos = s.pos
    ∧ (contCaseB2 s v pi ni).vertices = s.vertices
    ∧ (contCaseB2 s v pi ni).cont = s.cont := by
  unfold contCaseB2
  dsimp only
  repeat' split
  all_goals exact ⟨rfl, rfl, rfl⟩

theorem contCaseC1_frame (s : PolyState) (v pi ni : ℕ) :
    (contCaseC1 s v pi ni).pos = s.pos
    ∧ (contCaseC1 s v pi ni).vertices = s.vertices
    ∧ (contCaseC1 s v pi ni).cont = s.cont := by
  unfold contCaseC1
  dsimp only
  repeat' split
  all_goals exact ⟨rfl, rfl, rfl⟩

theorem contCaseC2_frame (s : PolyState) (v pi ni : ℕ) :
    (contCaseC2 s v pi ni).pos = s.pos
    ∧ (contCaseC2 s v pi ni).vertices = s.vertices
    ∧ (contCaseC2 s v pi ni).cont = s.cont := by
  unfold contCaseC2
  dsimp only
  repeat' split
  all_goals exact ⟨rfl, rfl, rfl⟩

/-- The vertex-triggered continuity enforcer writes only Bézier control
points: positions, the vertex list and continuity flags are untouched. -/
theorem enforce_from_vertex_frame (s : PolyState) (v : ℕ) :
    (enforce_vertex_continuity_from_vertex s v).pos = s.pos
    ∧ (enforce_vertex_continuity_from_vertex s v).vertices = s.vertices
    ∧ (enforce_vertex_continuity_from_vertex s v).cont = s.cont := by
  unfold enforce_vertex_continuity_from_vertex
  dsimp only
  split
  · split
    · exact ⟨rfl, rfl, rfl⟩
    · split
      · exact contCaseA_frame s v _ _
      · split
        · exact contCaseB1_frame s v _ _
        · split
          · exact contCaseB2_frame s v _ _
          · split
            · exact contCaseC1_frame s v _ _
            · split
              · exact contCaseC2_frame s v _ _
              · exact ⟨rfl, rfl, rfl⟩
  · exact ⟨rfl, rfl, rfl⟩

/-- C10: the vertex-triggered continuity enforcement pass modifies only
Bézier control-point positions — the position of every vertex id (in
particular both far endpoints of the adjacent edges) and the vertex list
itself are exactly the same after the call as before. -/
theorem enforce_from_vertex_moves_no_vertex (s : PolyState) (v w : ℕ) :
    (enforce_vertex_continuity_from_vertex s v).pos w = s.pos w
    ∧ (enforce_vertex_continuity_from_vertex s v).vertices = s.vertices := by
  refine ⟨?_, (enforce_from_vertex_frame s v).2.1⟩
  rw [(enforce_from_vertex_frame s v).1]

/-- Under a resolved adjacency with both edges Bézier and a non-`G0`
continuity, the enforcer reduces to case A. -/
theorem enforce_from_vertex_eq_caseA (s : PolyState) (v pi ni : ℕ)
    (hadj : adjacent_edges_of_vertex s v = (some pi, some ni))
    (hpb : (edgeAt s pi).type = EdgeType.BEZIER)
    (hnb : (edgeAt s ni).type = EdgeType.BEZIER)
    (hc : s.cont v ≠ ContinuityType.G0) :
    enforce_vertex_continuity_from_vertex s v = contCaseA s v pi ni := by
  unfold enforce_vertex_continuity_from_vertex
  rw [hadj]
  dsimp only
  rw [if_neg hc, if_pos ⟨hpb, hnb⟩]

/-- Explicit form of case A in the C1 branch: `next.c1` is written to the
point reflection of `prev.c2` through the vertex, then `prev.c2` is
recomputed from the freshly written `next.c1`. -/
theorem contCaseA_C1_eq (s : PolyState) (v pi ni : ℕ)
    (hc : s.cont v = ContinuityType.C1) :
    contCaseA s v pi ni
      = modifyEdge
          (modifyEdge s ni (fun e =>
            { e with c1 := ⟨2 * (s.pos v).x - (edgeAt s pi).c2.x,
                            2 * (s.pos v).y - (edgeAt s pi).c2.y⟩ }))
          pi (fun e =>
            { e with c2 := ⟨2 * (s.pos v).x -
                              (2 * (s.pos v).x - (edgeAt s pi).c2.x),
                            2 * (s.pos v).y -
                              (2 * (s.pos v).y - (edgeAt s pi).c2.y)⟩ }) := by
  unfold contCaseA
  dsimp only
  rw [if_neg (by simp [hc]), if_pos hc]

/-- C2: for a vertex whose adjacent edges are both Bézier and whose
continuity is C1, `enforce_from_vertex` sets the next edge's `c1` to the
point reflection `2·v − prev.c2` of the previous edge's `c2` through the
vertex, and leaves `prev.c2` itself at exactly its original position. -/
theorem c1_continuity_exact_reflection (s : PolyState) (v pi ni : ℕ)
    (hadj : adjacent_edges_of_vertex s v = (some pi, some ni))
    (hpi : pi < s.edges.length) (hni : ni < s.edges.length)
    (hpb : (edgeAt s pi).type = EdgeType.BEZIER)
    (hnb : (edgeAt s ni).type = EdgeType.BEZIER)
    (hc : s.cont v = ContinuityType.C1) :
    let s' := enforce_vertex_continuity_from_vertex s v
    (edgeAt s' ni).c1.x = 2 * (s.pos v).x - (edgeAt s pi).c2.x
    ∧ (edgeAt s' ni).c1.y = 2 * (s.pos v).y - (edgeAt s pi).c2.y
    ∧ (edgeAt s' pi).c2 = (edgeAt s pi).c2 := by
  intro s'
  have hs' : s' = modifyEdge
      (modifyEdge s ni (fun e =>
        { e with c1 := ⟨2 * (s.pos v).x - (edgeAt s pi).c2.x,
                        2 * (s.pos v).y - (edgeAt s pi).c2.y⟩ }))
      pi (fun e =>
        { e with c2 := ⟨2 * (s.pos v).x -
                          (2 * (s.pos v).x - (edgeAt s pi).c2.x),
                        2 * (s.pos v).y -
                          (2 * (s.pos v).y - (edgeAt s pi).c2.y)⟩ }) := by
    show enforce_vertex_continuity_from_vertex s v = _
    rw [enforce_from_vertex_eq_caseA s v pi ni hadj hpb hnb (by rw [hc]; decide),
      contCaseA_C1_eq s v pi ni hc]
  have hlen1 : ni < (modifyIdx s.edges ni (fun e =>
      { e with c1 := ⟨2 * (s.pos v).x - (edgeAt s pi).c2.x,
                      2 * (s.pos v).y - (edgeAt s pi).c2.y⟩ })).length := by
    rw [modifyIdx_length]; exact hni
  by_cases hpn : pi = ni
  · subst hpn
    have h1 : edgeAt s' pi
        = { (edgeAt s pi) with
              c1 := ⟨2 * (s.pos v).x - (edgeAt s pi).c2.x,
                     2 * (s.pos v).y - (edgeAt s pi).c2.y⟩,
              c2 := ⟨2 * (s.pos v).x -
                       (2 * (s.pos v).x - (edgeAt s pi).c2.x),
                     2 * (s.pos v).y -
                       (2 * (s.pos v).y - (edgeAt s pi).c2.y)⟩ } := by
      rw [hs']
      show ((modifyIdx (modifyIdx s.edges pi _) pi _).getD pi dfltEdge) = _
      rw [modifyIdx_getD_self _ _ _ _ hlen1, modifyIdx_getD_self _ _ _ _ hpi]
      rfl
    refine ⟨by rw [h1], by rw [h1], ?_⟩
    rw [h1]
    show (⟨2 * (s.pos v).x - (2 * (s.pos v).x - (edgeAt s pi).c2.x),
           2 * (s.pos v).y - (2 * (s.pos v).y - (edgeAt s pi).c2.y)⟩ : Point)
        = (edgeAt s pi).c2
    rw [Point.ext_iff']
    constructor <;> dsimp <;> ring
  · have h1 : edgeAt s' ni
        = { (edgeAt s ni) with
              c1 := ⟨2 * (s.pos v).x - (edgeAt s pi).c2.x,
                     2 * (s.pos v).y - (edgeAt s pi).c2.y⟩ } := by
      rw [hs']
      show ((modifyIdx (modifyIdx s.edges ni _) pi _).getD ni dfltEdge) = _
      rw [modifyIdx_getD_ne _ _ _ _ _ (fun h => hpn h.symm),
        modifyIdx_getD_self _ _ _ _ hni]
      rfl
    have h2 : edgeAt s' pi
        = { (edgeAt s pi) with
              c2 := ⟨2 * (s.pos v).x -
                       (2 * (s.pos v).x - (edgeAt s pi).c2.x),
                     2 * (s.pos v).y -
                       (2 * (s.pos v).y - (edgeAt s pi).c2.y)⟩ } := by
      rw [hs']
      show ((modifyIdx (modifyIdx s.edges ni _) pi _).getD pi dfltEdge) = _
      rw [modifyIdx_getD_self _ _ _ _ (by rw [modifyIdx_length]; exact hpi),
        modifyIdx_getD_ne _ _ _ _ _ hpn]
      rfl
    refine ⟨by rw [h1], by rw [h1], ?_⟩
    rw [h2]
    show (⟨2 * (s.pos v).x - (2 * (s.pos v).x - (edgeAt s pi).c2.x),
           2 * (s.pos v).y - (2 * (s.pos v).y - (edgeAt s pi).c2.y)⟩ : Point)
        = (edgeAt s pi).c2
    rw [Point.ext_iff']
    constructor <;> dsimp <;> ring

/-- Concrete three-vertex polygon witnessing the C1 reflection rule: vertex 1
sits between two Bézier edges and requests C1. -/
noncomputable def stateC2 : PolyState :=
  { vertices := [0, 1, 2]
  , pos := fun i => if i = 0 then ⟨0, 0⟩ else if i = 1 then ⟨3, 3⟩ else ⟨9, 9⟩
  , cont := fun i => if i = 1 then ContinuityType.C1 else ContinuityType.G0
  , edges :=
      [ ⟨0, 1, EdgeType.BEZIER, ⟨1, 1⟩, ⟨2, 2⟩, ConstraintType.NONE, none⟩
      , ⟨1, 2, EdgeType.BEZIER, ⟨5, 5⟩, ⟨6, 6⟩, ConstraintType.NONE, none⟩
      , mkEdge 2 0 ] }

/-- Witness for `c1_continuity_exact_reflection` on `stateC2` at vertex 1. -/
theorem c1_continuity_exact_reflection_witness :
    let s' := enforce_vertex_continuity_from_vertex stateC2 1
    (edgeAt s' 1).c1.x = 2 * (stateC2.pos 1).x - (edgeAt stateC2 0).c2.x
    ∧ (edgeAt s' 1).c1.y = 2 * (stateC2.pos 1).y - (edgeAt stateC2 0).c2.y
    ∧ (edgeAt s' 0).c2 = (edgeAt stateC2 0).c2 :=
  c1_continuity_exact_reflection stateC2 1 0 1 rfl
    (by norm_num [stateC2]) (by norm_num [stateC2]) rfl rfl rfl

/-- Explicit form of case A in the G1 branch with a non-negligible previous
handle: `next.c1` is rotated onto the previous handle's direction keeping its
own length, and `prev.c2` is re-written along the same direction at its own
length (which leaves it in place). -/
theorem contCaseA_G1_eq (s : PolyState) (v pi ni : ℕ)
    (hc : s.cont v = ContinuityType.G1)
    (hlen : 1e-8 < hypot ((s.pos v).x - (edgeAt s pi).c2.x)
                         ((s.pos v).y - (edgeAt s pi).c2.y)) :
    contCaseA s v pi ni
      = modifyEdge
          (modifyEdge s ni (fun e =>
            { e with c1 := ⟨(s.pos v).x +
                  ((s.pos v).x - (edgeAt s pi).c2.x) /
                    hypot ((s.pos v).x - (edgeAt s pi).c2.x)
                          ((s.pos v).y - (edgeAt s pi).c2.y) *
                    hypot ((edgeAt s ni).c1.x - (s.pos v).x)
                          ((edgeAt s ni).c1.y - (s.pos v).y),
                (s.pos v).y +
                  ((s.pos v).y - (edgeAt s pi).c2.y) /
                    hypot ((s.pos v).x - (edgeAt s pi).c2.x)
                          ((s.pos v).y - (edgeAt s pi).c2.y) *
                    hypot ((edgeAt s ni).c1.x - (s.pos v).x)
                          ((edgeAt s ni).c1.y - (s.pos v).y)⟩ }))
          pi (fun e =>
            { e with c2 := ⟨(s.pos v).x -
                  ((s.pos v).x - (edgeAt s pi).c2.x) /
                    hypot ((s.pos v).x - (edgeAt s pi).c2.x)
                          ((s.pos v).y - (edgeAt s pi).c2.y) *
                    hypot ((s.pos v).x - (edgeAt s pi).c2.x)
                          ((s.pos v).y - (edgeAt s pi).c2.y),
                (s.pos v).y -
                  ((s.pos v).y - (edgeAt s pi).c2.y) /
                    hypot ((s.pos v).x - (edgeAt s pi).c2.x)
                          ((s.pos v).y - (edgeAt s pi).c2.y) *
                    hypot ((s.pos v).x - (edgeAt s pi).c2.x)
                          ((s.pos v).y - (edgeAt s pi).c2.y)⟩ }) := by
  unfold contCaseA
  dsimp only
  rw [if_pos hc, if_pos hlen]

theorem hypot_neg_neg (x y : ℝ) : hypot (-x) (-y) = hypot x y := by
  unfold hypot
  rw [neg_pow, neg_pow]
  norm_num

/-- The control points written by `enforce_from_vertex` in the G1
both-Bézier case with non-negligible previous handle. -/
theorem enforce_G1_handles (s : PolyState) (v pi ni : ℕ)
    (hadj : adjacent_edges_of_vertex s v = (some pi, some ni))
    (hpi : pi < s.edges.length) (hni : ni < s.edges.length)
    (hpb : (edgeAt s pi).type = EdgeType.BEZIER)
    (hnb : (edgeAt s ni).type = EdgeType.BEZIER)
    (hg : s.cont v = ContinuityType.G1)
    (hpl : 1e-8 < hypot ((s.pos v).x - (edgeAt s pi).c2.x)
                        ((s.pos v).y - (edgeAt s pi).c2.y)) :
    let s' := enforce_vertex_continuity_from_vertex s v
    (edgeAt s' ni).c1
      = ⟨(s.pos v).x +
            ((s.pos v).x - (edgeAt s pi).c2.x) /
              hypot ((s.pos v).x - (edgeAt s pi).c2.x)
                    ((s.pos v).y - (edgeAt s pi).c2.y) *
              hypot ((edgeAt s ni).c1.x - (s.pos v).x)
                    ((edgeAt s ni).c1.y - (s.pos v).y),
          (s.pos v).y +
            ((s.pos v).y - (edgeAt s pi).c2.y) /
              hypot ((s.pos v).x - (edgeAt s pi).c2.x)
                    ((s.pos v).y - (edgeAt s pi).c2.y) *
              hypot ((edgeAt s ni).c1.x - (s.pos v).x)
                    ((edgeAt s ni).c1.y - (s.pos v).y)⟩
    ∧ (edgeAt s' pi).c2
      = ⟨(s.pos v).x -
            ((s.pos v).x - (edgeAt s pi).c2.x) /
              hypot ((s.pos v).x - (edgeAt s pi).c2.x)
                    ((s.pos v).y - (edgeAt s pi).c2.y) *
              hypot ((s.pos v).x - (edgeAt s pi).c2.x)
                    ((s.pos v).y - (edgeAt s pi).c2.y),
          (s.pos v).y -
            ((s.pos v).y - (edgeAt s pi).c2.y) /
              hypot ((s.pos v).x - (edgeAt s pi).c2.x)
                    ((s.pos v).y - (edgeAt s pi).c2.y) *
              hypot ((s.pos v).x - (edgeAt s pi).c2.x)
                    ((s.pos v).y - (edgeAt s pi).c2.y)⟩ := by
  intro s'
  have hs' : s' = contCaseA s v pi ni :=
    enforce_from_vertex_eq_caseA s v pi ni hadj hpb hnb (by rw [hg]; decide)
  rw [hs', contCaseA_G1_eq s v pi ni hg hpl]
  by_cases hpn : pi = ni
  · subst hpn
    constructor
    · show ((modifyIdx (modifyIdx s.edges pi _) pi _).getD pi dfltEdge).c1 = _
      rw [modifyIdx_getD_self _ _ _ _ (by rw [modifyIdx_length]; exact hpi),
        modifyIdx_getD_self _ _ _ _ hpi]
    · show ((modifyIdx (modifyIdx s.edges pi _) pi _).getD pi dfltEdge).c2 = _
      rw [modifyIdx_getD_self _ _ _ _ (by rw [modifyIdx_length]; exact hpi),
        modifyIdx_getD_self _ _ _ _ hpi]
  · constructor
    · show ((modifyIdx (modifyIdx s.edges ni _) pi _).getD ni dfltEdge).c1 = _
      rw [modifyIdx_getD_ne _ _ _ _ _ (fun h => hpn h.symm),
        modifyIdx_getD_self _ _ _ _ hni]
    · show ((modifyIdx (modifyIdx s.edges ni _) pi _).getD pi dfltEdge).c2 = _
      rw [modifyIdx_getD_self _ _ _ _ (by rw [modifyIdx_length]; exact hpi),
        modifyIdx_getD_ne _ _ _ _ _ hpn]

/-- C3 (amended): for a vertex between two Bézier edges with continuity G1
whose previous handle offset is non-negligible **and whose next handle
offset is nonzero**, `enforce_from_vertex` leaves each handle's distance to
the vertex unchanged and makes the two handle offsets antiparallel (the dot
product of their unit directions is exactly −1). -/
theorem g1_continuity_roundtrip (s : PolyState) (v pi ni : ℕ)
    (hadj : adjacent_edges_of_vertex s v = (some pi, some ni))
    (hpi : pi < s.edges.length) (hni : ni < s.edges.length)
    (hpb : (edgeAt s pi).type = EdgeType.BEZIER)
    (hnb : (edgeAt s ni).type = EdgeType.BEZIER)
    (hg : s.cont v = ContinuityType.G1)
    (hpl : 1e-8 < hypot ((s.pos v).x - (edgeAt s pi).c2.x)
                        ((s.pos v).y - (edgeAt s pi).c2.y))
    (hnl : hypot ((edgeAt s ni).c1.x - (s.pos v).x)
                 ((edgeAt s ni).c1.y - (s.pos v).y) ≠ 0) :
    let s' := enforce_vertex_continuity_from_vertex s v
    let pox := (edgeAt s' pi).c2.x - (s.pos v).x
    let poy := (edgeAt s' pi).c2.y - (s.pos v).y
    let nox := (edgeAt s' ni).c1.x - (s.pos v).x
    let noy := (edgeAt s' ni).c1.y - (s.pos v).y
    hypot pox poy
      = hypot ((edgeAt s pi).c2.x - (s.pos v).x)
              ((edgeAt s pi).c2.y - (s.pos v).y)
    ∧ hypot nox noy
      = hypot ((edgeAt s ni).c1.x - (s.pos v).x)
              ((edgeAt s ni).c1.y - (s.pos v).y)
    ∧ pox / hypot pox poy * (nox / hypot nox noy)
        + poy / hypot pox poy * (noy / hypot nox noy) = -1 := by
  intro s' pox poy nox noy
  obtain ⟨hc1, hc2⟩ :=
    enforce_G1_handles s v pi ni hadj hpi hni hpb hnb hg hpl
  set vx := (s.pos v).x with hvx
  set vy := (s.pos v).y with hvy
  set pvx := vx - (edgeAt s pi).c2.x with hpvx
  set pvy := vy - (edgeAt s pi).c2.y with hpvy
  set nvx := (edgeAt s ni).c1.x - vx with hnvx
  set nvy := (edgeAt s ni).c1.y - vy with hnvy
  set Lp := hypot pvx pvy with hLp
  set Ln := hypot nvx nvy with hLn
  have hLp0 : Lp ≠ 0 := by
    intro h; rw [h] at hpl; norm_num at hpl
  have hLppos : 0 < Lp :=
    lt_of_le_of_ne (hypot_nonneg _ _) (Ne.symm hLp0)
  have hLnpos : 0 < Ln :=
    lt_of_le_of_ne (hypot_nonneg _ _) (Ne.symm hnl)
  have hpox : pox = -pvx := by
    show (edgeAt s' pi).c2.x - vx = -pvx
    rw [hc2]
    dsimp only
    field_simp
  have hpoy : poy = -pvy := by
    show (edgeAt s' pi).c2.y - vy = -pvy
    rw [hc2]
    dsimp only
    field_simp
  have hnox : nox = pvx / Lp * Ln := by
    show (edgeAt s' ni).c1.x - vx = pvx / Lp * Ln
    rw [hc1]
    dsimp only
    ring
  have hnoy : noy = pvy / Lp * Ln := by
    show (edgeAt s' ni).c1.y - vy = pvy / Lp * Ln
    rw [hc1]
    dsimp only
    ring
  have hpo_hyp : hypot pox poy = Lp := by
    rw [hpox, hpoy, hypot_neg_neg]
  have hno_hyp : hypot nox noy = Ln := by
    rw [hnox, hnoy,
      show pvx / Lp * Ln = Ln / Lp * pvx by ring,
      show pvy / Lp * Ln = Ln / Lp * pvy by ring,
      hypot_mul, abs_of_nonneg (by positivity : (0:ℝ) ≤ Ln / Lp), ← hLp]
    field_simp
  refine ⟨?_, ?_, ?_⟩
  · rw [hpo_hyp, hLp, hpvx, hpvy,
      show vx - (edgeAt s pi).c2.x = -((edgeAt s pi).c2.x - vx) by ring,
      show vy - (edgeAt s pi).c2.y = -((edgeAt s pi).c2.y - vy) by ring,
      hypot_neg_neg]
  · rw [hno_hyp]
  · rw [hpo_hyp, hno_hyp, hpox, hpoy, hnox, hnoy]
    have hsq : pvx ^ 2 + pvy ^ 2 = Lp ^ 2 := (sq_hypot pvx pvy).symm
    have key : -pvx / Lp * (pvx / Lp * Ln / Ln) + -pvy / Lp * (pvy / Lp * Ln / Ln)
        = -((pvx ^ 2 + pvy ^ 2) / Lp ^ 2) := by
      field_simp
      ring
    rw [key, hsq, div_self (pow_ne_zero 2 hLp0)]

/-- Concrete polygon refuting the unamended G1 round-trip claim: vertex 1
requests G1 between two Bézier edges, the previous handle is at distance 10,
but the next handle coincides with the vertex. -/
noncomputable def stateC3 : PolyState :=
  { vertices := [0, 1, 2]
  , pos := fun i => if i = 0 then ⟨-20, 0⟩ else if i = 1 then ⟨0, 0⟩
           else ⟨10, 10⟩
  , cont := fun i => if i = 1 then ContinuityType.G1 else ContinuityType.G0
  , edges :=
      [ ⟨0, 1, EdgeType.BEZIER, ⟨-15, 0⟩, ⟨-10, 0⟩, ConstraintType.NONE, none⟩
      , ⟨1, 2, EdgeType.BEZIER, ⟨0, 0⟩, ⟨5, 5⟩, ConstraintType.NONE, none⟩
      , mkEdge 2 0 ] }

theorem stateC3_prev_len : hypot ((stateC3.pos 1).x - (edgeAt stateC3 0).c2.x)
    ((stateC3.pos 1).y - (edgeAt stateC3 0).c2.y) = 10 := by
  show hypot ((0:ℝ) - (-10)) ((0:ℝ) - 0) = 10
  rw [show (0:ℝ) - (-10) = 10 by ring, show (0:ℝ) - 0 = 0 by ring,
    hypot_right_zero]
  norm_num

/-- C3 counterexample: on `stateC3` every premise of the claim holds (both
edges Bézier, continuity G1, previous handle offset of length 10), yet after
enforcement the next handle offset is the zero vector while the previous one
is not — the two offsets do not point in opposite directions (no negative
scalar relates them), falsifying the claim as stated. -/
theorem g1_continuity_roundtrip_counterexample :
    let s' := enforce_vertex_continuity_from_vertex stateC3 1
    adjacent_edges_of_vertex stateC3 1 = (some 0, some 1)
    ∧ (edgeAt stateC3 0).type = EdgeType.BEZIER
    ∧ (edgeAt stateC3 1).type = EdgeType.BEZIER
    ∧ stateC3.cont 1 = ContinuityType.G1
    ∧ 1e-8 < hypot ((stateC3.pos 1).x - (edgeAt stateC3 0).c2.x)
                   ((stateC3.pos 1).y - (edgeAt stateC3 0).c2.y)
    ∧ (edgeAt s' 1).c1.x - (stateC3.pos 1).x = 0
    ∧ (edgeAt s' 1).c1.y - (stateC3.pos 1).y = 0
    ∧ (edgeAt s' 0).c2.x - (stateC3.pos 1).x ≠ 0
    ∧ ∀ c : ℝ, c < 0 →
        ¬((edgeAt s' 1).c1.x - (stateC3.pos 1).x
            = c * ((edgeAt s' 0).c2.x - (stateC3.pos 1).x)
          ∧ (edgeAt s' 1).c1.y - (stateC3.pos 1).y
            = c * ((edgeAt s' 0).c2.y - (stateC3.pos 1).y)) := by
  intro s'
  have hpl : (1e-8:ℝ) < hypot ((stateC3.pos 1).x - (edgeAt stateC3 0).c2.x)
      ((stateC3.pos 1).y - (edgeAt stateC3 0).c2.y) := by
    rw [stateC3_prev_len]; norm_num
  obtain ⟨hc1, hc2⟩ := enforce_G1_handles stateC3 1 0 1 rfl
    (by norm_num [stateC3]) (by norm_num [stateC3]) rfl rfl rfl hpl
  have hLp : hypot ((stateC3.pos 1).x - (edgeAt stateC3 0).c2.x)
      ((stateC3.pos 1).y - (edgeAt stateC3 0).c2.y) = 10 := stateC3_prev_len
  have hLn : hypot ((edgeAt stateC3 1).c1.x - (stateC3.pos 1).x)
      ((edgeAt stateC3 1).c1.y - (stateC3.pos 1).y) = 0 := by
    show hypot ((0:ℝ) - 0) ((0:ℝ) - 0) = 0
    rw [show (0:ℝ) - 0 = 0 by ring, hypot_right_zero]
    norm_num
  have hnx : (edgeAt s' 1).c1.x - (stateC3.pos 1).x = 0 := by
    rw [hc1]
    dsimp only
    rw [hLn]
    show (0:ℝ) + (0 - -10) / hypot (0 - -10) (0 - 0) * 0 - 0 = 0
    ring
  have hny : (edgeAt s' 1).c1.y - (stateC3.pos 1).y = 0 := by
    rw [hc1]
    dsimp only
    rw [hLn]
    show (0:ℝ) + (0 - 0) / hypot (0 - -10) (0 - 0) * 0 - 0 = 0
    ring
  have hpx : (edgeAt s' 0).c2.x - (stateC3.pos 1).x = -10 := by
    rw [hc2]
    dsimp only
    rw [hLp]
    show (0:ℝ) - (0 - -10) / 10 * 10 - 0 = -10
    norm_num
  refine ⟨rfl, rfl, rfl, rfl, hpl, hnx, hny, ?_, ?_⟩
  · rw [hpx]; norm_num
  · intro c hc ⟨h1, h2⟩
    rw [hnx, hpx] at h1
    have : c = 0 := by linarith [h1]
    exact absurd this (ne_of_lt hc)

theorem hypot_left_zero (t : ℝ) : hypot 0 t = |t| := by
  unfold hypot
  rw [show (0:ℝ) ^ 2 + t ^ 2 = t ^ 2 by ring, Real.sqrt_sq_eq_abs]

/-- Concrete polygon witnessing the amended G1 round-trip: vertex 1 at the
origin with `prev.c2 = (−10, 0)` and `next.c1 = (0, 10)`, continuity G1. -/
noncomputable def stateC3w : PolyState :=
  { vertices := [0, 1, 2]
  , pos := fun i => if i = 0 then ⟨-20, 0⟩ else if i = 1 then ⟨0, 0⟩
           else ⟨10, 10⟩
  , cont := fun i => if i = 1 then ContinuityType.G1 else ContinuityType.G0
  , edges :=
      [ ⟨0, 1, EdgeType.BEZIER, ⟨-15, 0⟩, ⟨-10, 0⟩, ConstraintType.NONE, none⟩
      , ⟨1, 2, EdgeType.BEZIER, ⟨0, 10⟩, ⟨5, 5⟩, ConstraintType.NONE, none⟩
      , mkEdge 2 0 ] }

/-- Witness for `g1_continuity_roundtrip` on `stateC3w` at vertex 1. -/
theorem g1_continuity_roundtrip_witness :
    let s' := enforce_vertex_continuity_from_vertex stateC3w 1
    let pox := (edgeAt s' 0).c2.x - (stateC3w.pos 1).x
    let poy := (edgeAt s' 0).c2.y - (stateC3w.pos 1).y
    let nox := (edgeAt s' 1).c1.x - (stateC3w.pos 1).x
    let noy := (edgeAt s' 1).c1.y - (stateC3w.pos 1).y
    hypot pox poy
      = hypot ((edgeAt stateC3w 0).c2.x - (stateC3w.pos 1).x)
              ((edgeAt stateC3w 0).c2.y - (stateC3w.pos 1).y)
    ∧ hypot nox noy
      = hypot ((edgeAt stateC3w 1).c1.x - (stateC3w.pos 1).x)
              ((edgeAt stateC3w 1).c1.y - (stateC3w.pos 1).y)
    ∧ pox / hypot pox poy * (nox / hypot nox noy)
        + poy / hypot pox poy * (noy / hypot nox noy) = -1 :=
  g1_continuity_roundtrip stateC3w 1 0 1 rfl
    (by norm_num [stateC3w]) (by norm_num [stateC3w]) rfl rfl rfl
    (by
      show (1e-8:ℝ) < hypot ((0:ℝ) - (-10)) ((0:ℝ) - 0)
      rw [show (0:ℝ) - (-10) = 10 by ring, show (0:ℝ) - 0 = 0 by ring,
        hypot_right_zero]
      norm_num)
    (by
      show hypot ((0:ℝ) - 0) ((10:ℝ) - 0) ≠ 0
      rw [show (0:ℝ) - 0 = 0 by ring, show (10:ℝ) - 0 = 10 by ring,
        hypot_left_zero]
      norm_num)

/-! ### Continuity assignment (`apply_continuity_to_vertex`,
src/graphics/polygon_item.py lines 665-721) -/

/-- `apply_continuity_to_vertex`: validate the request against the adjacent
edge types (reject Line-Line vertices, C1 next to an Arc, and a G1 request
whose arc's other endpoint already holds G1), then set the vertex continuity
and — when a Bézier edge is adjacent — enforce it immediately.  Returns the
source's boolean together with the resulting state. -/
noncomputable def apply_continuity_to_vertex (s : PolyState) (v : ℕ)
    (continuity : ContinuityType) : Bool × PolyState :=
  match adjacent_edges_of_vertex s v with
  | (some pi, some ni) =>
    let prevE := edgeAt s pi
    let nextE := edgeAt s ni
    let t1 := prevE.type
    let t2 := nextE.type
    if t1 = EdgeType.LINE ∧ t2 = EdgeType.LINE then (false, s)
    else if (t1 = EdgeType.ARC ∨ t2 = EdgeType.ARC)
        ∧ continuity = ContinuityType.C1 then (false, s)
    else if continuity = ContinuityType.G1
        ∧ (t1 = EdgeType.ARC ∨ t2 = EdgeType.ARC)
        ∧ ((t1 = EdgeType.ARC
            ∧ s.cont (if prevE.v1 = v then prevE.v2 else prevE.v1)
                = ContinuityType.G1)
           ∨ (t2 = EdgeType.ARC
            ∧ s.cont (if nextE.v1 = v then nextE.v2 else nextE.v1)
                = ContinuityType.G1)) then
      (false, s)
    else
      let s1 := setCont s v continuity
      let s2 := if t1 = EdgeType.BEZIER ∨ t2 = EdgeType.BEZIER
                then enforce_vertex_continuity_from_vertex s1 v else s1
      (true, s2)
  | _ => (false, s)

/-- C5: `apply_continuity(vertex, C1)` returns `false` and returns the state
entirely unchanged (vertex continuity, every vertex position and every
control point included — the result is literally the input state) whenever
either adjacent edge is an Arc, and likewise when both adjacent edges are
Line; no rejected call performs any partial mutation. -/
theorem apply_continuity_C1_rejection (s : PolyState) (v pi ni : ℕ)
    (hadj : adjacent_edges_of_vertex s v = (some pi, some ni))
    (h : (edgeAt s pi).type = EdgeType.ARC
         ∨ (edgeAt s ni).type = EdgeType.ARC
         ∨ ((edgeAt s pi).type = EdgeType.LINE
            ∧ (edgeAt s ni).type = EdgeType.LINE)) :
    apply_continuity_to_vertex s v ContinuityType.C1 = (false, s) := by
  unfold apply_continuity_to_vertex
  rw [hadj]
  dsimp only
  by_cases hbl : (edgeAt s pi).type = EdgeType.LINE
      ∧ (edgeAt s ni).type = EdgeType.LINE
  · rw [if_pos hbl]
  · rw [if_neg hbl]
    have harc : (edgeAt s pi).type = EdgeType.ARC
        ∨ (edgeAt s ni).type = EdgeType.ARC := by
      rcases h with h | h | h
      · exact Or.inl h
      · exact Or.inr h
      · exact absurd h hbl
    rw [if_pos ⟨harc, rfl⟩]

/-- Concrete polygon for the rejection witness: vertex 1 has a Line edge on
one side and an Arc edge on the other. -/
noncomputable def stateC5 : PolyState :=
  { vertices := [0, 1, 2]
  , pos := fun i => if i = 0 then ⟨0, 0⟩ else if i = 1 then ⟨4, 0⟩
           else ⟨4, 4⟩
  , cont := fun _ => ContinuityType.G0
  , edges := [ mkEdge 0 1
             , ⟨1, 2, EdgeType.ARC, ⟨0, 0⟩, ⟨0, 0⟩, ConstraintType.NONE, none⟩
             , mkEdge 2 0 ] }

/-- Witness for `apply_continuity_C1_rejection` on `stateC5` at vertex 1. -/
theorem apply_continuity_C1_rejection_witness :
    apply_continuity_to_vertex stateC5 1 ContinuityType.C1 = (false, stateC5) :=
  apply_continuity_C1_rejection stateC5 1 0 1 rfl (Or.inr (Or.inl rfl))

/-! ### The arc geometry solver (src/geometry.py)

`neighbour_tangent` and `compute_arc_geometry_for_edge` are pure functions
of the edge list and the vertex attributes; they are embedded over the
position and continuity maps directly. -/

/-- `math.atan2 y x`, modelled as the argument of the complex number
`x + i y` (the standard principal value in `(-π, π]`). -/
noncomputable def atan2 (y x : ℝ) : ℝ := Complex.arg ⟨x, y⟩

/-- `neighbour_tangent` (src/geometry.py lines 24-88): unit tangent at a
shared endpoint of the arc edge `e` (at index `idx`), read off the
neighbouring edge; two adjacent arcs with a G1 vertex use the angle
bisector of the incoming and outgoing directions. -/
noncomputable def neighbour_tangent (pos : ℕ → Point)
    (cont : ℕ → ContinuityType) (edges : List EdgeRec) (idx : ℕ)
    (e : EdgeRec) (vertex : ℕ) (at_v1 : Bool) : Option (ℝ × ℝ) :=
  let n_edges := edges.length
  if at_v1 then
    let ne := edges.getD ((idx + n_edges - 1) % n_edges) dfltEdge
    let bis : Option (ℝ × ℝ) :=
      if ne.type = EdgeType.ARC ∧ cont vertex = ContinuityType.G1 then
        let i0 : ℝ × ℝ :=
          if ne.v2 = vertex then
            ((pos vertex).x - (pos ne.v1).x, (pos vertex).y - (pos ne.v1).y)
          else
            ((pos vertex).x - (pos ne.v2).x, (pos vertex).y - (pos ne.v2).y)
        let o0 : ℝ × ℝ :=
          ((pos e.v2).x - (pos vertex).x, (pos e.v2).y - (pos vertex).y)
        match (unitv i0.1 i0.2).1, (unitv o0.1 o0.2).1 with
        | some uIn, some uOut =>
          match (unitv (uIn.1 + uOut.1) (uIn.2 + uOut.2)).1 with
          | none => some uOut
          | some uB => some uB
        | _, _ => none
      else none
    match bis with
    | some r => some r
    | none =>
      let d0 : ℝ × ℝ :=
        if ne.v2 = vertex then
          ((pos vertex).x - (pos ne.v1).x, (pos vertex).y - (pos ne.v1).y)
        else
          ((pos ne.v2).x - (pos vertex).x, (pos ne.v2).y - (pos vertex).y)
      let d : ℝ × ℝ :=
        if ne.type = EdgeType.BEZIER then
          ((pos vertex).x - ne.c2.x, (pos vertex).y - ne.c2.y)
        else d0
      (unitv d.1 d.2).1
  else
    let ne := edges.getD ((idx + 1) % n_edges) dfltEdge
    let bis : Option (ℝ × ℝ) :=
      if ne.type = EdgeType.ARC ∧ cont vertex = ContinuityType.G1 then
        let i0 : ℝ × ℝ :=
          ((pos vertex).x - (pos e.v1).x, (pos vertex).y - (pos e.v1).y)
        let o0 : ℝ × ℝ :=
          if ne.v1 = vertex then
            ((pos ne.v2).x - (pos vertex).x, (pos ne.v2).y - (pos vertex).y)
          else
            ((pos ne.v1).x - (pos vertex).x, (pos ne.v1).y - (pos vertex).y)
        match (unitv i0.1 i0.2).1, (unitv o0.1 o0.2).1 with
        | some uIn, some uOut =>
          match (unitv (uIn.1 + uOut.1) (uIn.2 + uOut.2)).1 with
          | none => some uOut
          | some uB => some uB
        | _, _ => none
      else none
    match bis with
    | some r => some r
    | none =>
      let d0 : ℝ × ℝ :=
        if ne.v1 = vertex then
          ((pos ne.v2).x - (pos vertex).x, (pos ne.v2).y - (pos vertex).y)
        else
          ((pos vertex).x - (pos ne.v1).x, (pos vertex).y - (pos ne.v1).y)
      let d : ℝ × ℝ :=
        if ne.type = EdgeType.BEZIER then
          (ne.c1.x - (pos vertex).x, ne.c1.y - (pos vertex).y)
        else d0
      (unitv d.1 d.2).1

/-- `neighbour_tangent` reads the continuity map only at the shared vertex:
two maps agreeing there give the same tangent. -/
theorem neighbour_tangent_cont_congr (pos : ℕ → Point)
    (c c' : ℕ → ContinuityType) (edges : List EdgeRec) (idx : ℕ)
    (e : EdgeRec) (vertex : ℕ) (b : Bool) (hc : c' vertex = c vertex) :
    neighbour_tangent pos c' edges idx e vertex b
      = neighbour_tangent pos c edges idx e vertex b := by
  unfold neighbour_tangent
  rw [hc]

/-- `compute_arc_geometry_for_edge` (src/geometry.py lines 96-174): derive
`(Cx, Cy, R, a_start, a_end, prefer_ccw)` for an arc edge from its chord and
the at-most-one honored G1 endpoint. -/
noncomputable def compute_arc_geometry_for_edge (pos : ℕ → Point)
    (cont : ℕ → ContinuityType) (edges : List EdgeRec) (idx : ℕ)
    (arcEdge : EdgeRec) : ℝ × ℝ × ℝ × ℝ × ℝ × Bool :=
  let v1 := arcEdge.v1
  let v2 := arcEdge.v2
  let x1 := (pos v1).x
  let y1 := (pos v1).y
  let x2 := (pos v2).x
  let y2 := (pos v2).y
  let uc := unitv (x2 - x1) (y2 - y1)
  match uc.1 with
  | none => ((x1 + x2) * 0.5, (y1 + y2) * 0.5, uc.2 * 0.5, 0, 0, true)
  | some chord_u =>
    if uc.2 < 1e-6 then
      ((x1 + x2) * 0.5, (y1 + y2) * 0.5, uc.2 * 0.5, 0, 0, true)
    else
      let g1v1 : Bool := if cont v1 = ContinuityType.G1 then true else false
      let g1v2pre : Bool := if cont v2 = ContinuityType.G1 then true else false
      -- only one end may be G1: with both set, honor only v1
      let g1v2 : Bool := if g1v1 && g1v2pre then false else g1v2pre
      let Mx := (x1 + x2) * 0.5
      let My := (y1 + y2) * 0.5
      let nc := rot90_ccw chord_u
      let geo : (ℝ × ℝ) × ℝ × Bool :=
        if g1v1 || g1v2 then
          let t? := if g1v1 then neighbour_tangent pos cont edges idx arcEdge v1 true
                    else neighbour_tangent pos cont edges idx arcEdge v2 false
          let P : ℝ × ℝ := if g1v1 then (x1, y1) else (x2, y2)
          match t? with
          | none => ((Mx, My), uc.2 * 0.5, true)
          | some t =>
            let nt := rot90_ccw t
            let mx := Mx - P.1
            let my := My - P.2
            let det := nt.1 * (-nc.2) - nt.2 * (-nc.1)
            if 1e-8 < |det| then
              let sc := (mx * (-nc.2) - my * (-nc.1)) / det
              let Cx := P.1 + sc * nt.1
              let Cy := P.2 + sc * nt.2
              let R := hypot (P.1 - Cx) (P.2 - Cy)
              let pc : Bool :=
                match (unitv (P.1 - Cx) (P.2 - Cy)).1 with
                | none => true
                | some ru =>
                  let tccw := rot90_ccw ru
                  let tcw := rot90_cw ru
                  decide (tcw.1 * t.1 + tcw.2 * t.2
                            ≤ tccw.1 * t.1 + tccw.2 * t.2)
              ((Cx, Cy), R, pc)
            else ((Mx, My), uc.2 * 0.5, true)
        else ((Mx, My), uc.2 * 0.5, true)
      let Cx := geo.1.1
      let Cy := geo.1.2
      let R := geo.2.1
      let prefer_ccw := geo.2.2
      let a1 := atan2 (y1 - Cy) (x1 - Cx)
      let a2 := atan2 (y2 - Cy) (x2 - Cx)
      let a1n := norm_angle a1
      let a2n := norm_angle a2
      let sweep :=
        if prefer_ccw then
          (if a2n - a1n ≤ 0 then a2n - a1n + 2 * Real.pi else a2n - a1n)
        else
          -(if a1n - a2n ≤ 0 then a1n - a2n + 2 * Real.pi else a1n - a2n)
      (Cx, Cy, R, a1, a1 + sweep, prefer_ccw)

/-- C4: for an arc edge whose endpoints both request G1, the solver returns
exactly the same geometry (center, radius, start/end angle, orientation) as
when `v2`'s continuity is reset to G0 with everything else equal — only
`v1`'s tangent request influences the computed circle. -/
theorem arc_both_g1_same_as_v2_g0 (pos : ℕ → Point)
    (cont : ℕ → ContinuityType) (edges : List EdgeRec) (idx : ℕ)
    (arcEdge : EdgeRec)
    (h1 : cont arcEdge.v1 = ContinuityType.G1)
    (h2 : cont arcEdge.v2 = ContinuityType.G1) :
    compute_arc_geometry_for_edge pos cont edges idx arcEdge
      = compute_arc_geometry_for_edge pos
          (Function.update cont arcEdge.v2 ContinuityType.G0)
          edges idx arcEdge := by
  by_cases hv : arcEdge.v1 = arcEdge.v2
  · -- identical endpoints: the chord is degenerate, continuity is never read
    unfold compute_arc_geometry_for_edge
    have hz : unitv ((pos arcEdge.v2).x - (pos arcEdge.v1).x)
        ((pos arcEdge.v2).y - (pos arcEdge.v1).y) = (none, 0) := by
      rw [hv]
      unfold unitv
      rw [if_pos]
      rw [sub_self, sub_self, hypot_right_zero, abs_zero]
      norm_num
    dsimp only
    rw [hz]
  · have hc1 : Function.update cont arcEdge.v2 ContinuityType.G0 arcEdge.v1
        = ContinuityType.G1 := by
      rw [Function.update_noteq hv, h1]
    have hc2 : Function.update cont arcEdge.v2 ContinuityType.G0 arcEdge.v2
        = ContinuityType.G0 := Function.update_same _ _ _
    have hcongr : neighbour_tangent pos
        (Function.update cont arcEdge.v2 ContinuityType.G0)
        edges idx arcEdge arcEdge.v1 true
          = neighbour_tangent pos cont edges idx arcEdge arcEdge.v1 true :=
      neighbour_tangent_cont_congr pos cont _ edges idx arcEdge arcEdge.v1
        true (by rw [hc1, h1])
    unfold compute_arc_geometry_for_edge
    simp [h1, h2, hc1, hc2, hcongr]

/-- Position map for the C4 witness polygon. -/
noncomputable def posC4 : ℕ → Point :=
  fun i => if i = 0 then ⟨0, 0⟩ else if i = 1 then ⟨10, 0⟩ else ⟨10, 10⟩

/-- Continuity map for the C4 witness polygon: both arc endpoints (ids 1
and 2) request G1. -/
def contC4 : ℕ → ContinuityType :=
  fun i => if i = 0 then ContinuityType.G0 else ContinuityType.G1

/-- Arc edge of the C4 witness polygon. -/
noncomputable def arcC4 : EdgeRec :=
  ⟨1, 2, EdgeType.ARC, ⟨0, 0⟩, ⟨0, 0⟩, ConstraintType.NONE, none⟩

/-- Edge list of the C4 witness polygon. -/
noncomputable def edgesC4 : List EdgeRec := [mkEdge 0 1, arcC4, mkEdge 2 0]

/-- Witness for `arc_both_g1_same_as_v2_g0` on the concrete polygon. -/
theorem arc_both_g1_same_as_v2_g0_witness :
    compute_arc_geometry_for_edge posC4 contC4 edgesC4 1 arcC4
      = compute_arc_geometry_for_edge posC4
          (Function.update contC4 arcC4.v2 ContinuityType.G0)
          edgesC4 1 arcC4 :=
  arc_both_g1_same_as_v2_g0 posC4 contC4 edgesC4 1 arcC4 rfl rfl

/-! ### Vertex deletion (`delete_vertex`,
src/graphics/polygon_item.py lines 1112-1155) -/

/-- `delete_vertex`: refuse when only 3 vertices remain; otherwise remove
the vertex from the cyclic list, replace the lower-indexed incident edge by
a plain Line edge joining the former neighbours, and delete the remaining
incident edges (highest index first).  The source collects incident edge
indices by scanning `polygon.edges` in order (already ascending; it sorts
them anyway). -/
noncomputable def delete_vertex (s : PolyState) (vid : ℕ) : PolyState :=
  let n := s.vertices.length
  if 3 < n then
    let di := s.vertices.indexOf vid
    let prev_vertex := idAt s ((di + n - 1) % n)
    let next_vertex := idAt s ((di + 1) % n)
    let verts' := s.vertices.eraseIdx di
    let eidxs := (List.range s.edges.length).filter
      (fun k => (edgeAt s k).v1 == vid || (edgeAt s k).v2 == vid)
    let ri := eidxs.headD 0
    let edges1 := s.edges.set ri (mkEdge prev_vertex next_vertex)
    let edges2 := (eidxs.drop 1).reverse.foldl
      (fun es k => es.eraseIdx k) edges1
    { s with vertices := verts', edges := edges2 }
  else s

/-- The structural invariant of the cyclic polygon (spec §3): at least three
pairwise-distinct vertex ids, one edge per vertex, and `edges[i]` joining
`vertices[i]` to `vertices[(i+1) mod n]`. -/
def WellFormed (s : PolyState) : Prop :=
  3 ≤ s.vertices.length
  ∧ s.vertices.Nodup
  ∧ s.edges.length = s.vertices.length
  ∧ ∀ k, k < s.edges.length →
      (edgeAt s k).v1 = idAt s k
      ∧ (edgeAt s k).v2 = idAt s ((k + 1) % s.vertices.length)

theorem idAt_eq_get (s : PolyState) (k : ℕ) (hk : k < s.vertices.length) :
    idAt s k = s.vertices.get ⟨k, hk⟩ := by
  unfold idAt
  rw [List.getD_eq_getElem s.vertices 0 hk]
  rfl

/-- With pairwise-distinct ids, `idAt` is injective below the length. -/
theorem idAt_inj (s : PolyState) (hn : s.vertices.Nodup) (k m : ℕ)
    (hk : k < s.vertices.length) (hm : m < s.vertices.length)
    (h : idAt s k = idAt s m) : k = m := by
  rw [idAt_eq_get s k hk, idAt_eq_get s m hm] at h
  have := List.Nodup.get_inj_iff hn (i := ⟨k, hk⟩) (j := ⟨m, hm⟩)
  simpa using this.1 h

/-- `list.index(x)` of the i-th element of a duplicate-free list is `i`. -/
theorem indexOf_idAt (s : PolyState) (hn : s.vertices.Nodup) (i : ℕ)
    (hi : i < s.vertices.length) :
    s.vertices.indexOf (idAt s i) = i := by
  have hmem : idAt s i ∈ s.vertices := by
    rw [idAt_eq_get s i hi]; exact List.get_mem _ _ hi
  have hlt : s.vertices.indexOf (idAt s i) < s.vertices.length :=
    List.indexOf_lt_length.2 hmem
  have hg : s.vertices.get ⟨s.vertices.indexOf (idAt s i), hlt⟩ = idAt s i :=
    List.indexOf_get hlt
  have hg2 : s.vertices.get ⟨s.vertices.indexOf (idAt s i), hlt⟩
      = s.vertices.get ⟨i, hi⟩ := by
    rw [hg, idAt_eq_get s i hi]
  have := (List.Nodup.get_inj_iff hn).1 hg2
  simpa using this

/-- Filtering `range m` by a predicate true exactly at `c`. -/
theorem range_filter_single (m c : ℕ) (q : ℕ → Bool) (hc : c < m)
    (hq : ∀ k, k < m → (q k = true ↔ k = c)) :
    (List.range m).filter q = [c] := by
  rw [show m = c + 1 + (m - (c + 1)) by omega, List.range_add,
    List.filter_append, List.range_succ, List.filter_append]
  have h1 : (List.range c).filter q = [] := by
    rw [List.filter_eq_nil_iff]
    intro k hk hqk
    rw [List.mem_range] at hk
    have := (hq k (by omega)).1 hqk
    omega
  have h2 : [c].filter q = [c] := by
    have := (hq c (by omega)).2 rfl
    simp [List.filter, this]
  have h3 : ((List.range (m - (c + 1))).map (c + 1 + ·)).filter q = [] := by
    rw [List.filter_map, List.filter_eq_nil_iff.2 ?_]
    · rfl
    · intro k hk hqk
      rw [List.mem_range] at hk
      have := (hq (c + 1 + k) (by omega)).1 hqk
      omega
  rw [h1, h2, h3]
  rfl

/-- Filtering `range n` by a predicate true exactly at `a < b`. -/
theorem range_filter_pair (n a b : ℕ) (p : ℕ → Bool) (hab : a < b)
    (hbn : b < n) (hp : ∀ k, k < n → (p k = true ↔ (k = a ∨ k = b))) :
    (List.range n).filter p = [a, b] := by
  rw [show n = a + 1 + (n - (a + 1)) by omega, List.range_add,
    List.filter_append, List.range_succ, List.filter_append]
  have h1 : (List.range a).filter p = [] := by
    rw [List.filter_eq_nil_iff]
    intro k hk hpk
    rw [List.mem_range] at hk
    have := (hp k (by omega)).1 hpk
    omega
  have h2 : [a].filter p = [a] := by
    have := (hp a (by omega)).2 (Or.inl rfl)
    simp [List.filter, this]
  have h3 : ((List.range (n - (a + 1))).map (a + 1 + ·)).filter p = [b] := by
    rw [List.filter_map]
    have hsing : (List.range (n - (a + 1))).filter (p ∘ (a + 1 + ·))
        = [b - a - 1] := by
      apply range_filter_single
      · omega
      · intro k hk
        show p (a + 1 + k) = true ↔ k = b - a - 1
        rw [hp (a + 1 + k) (by omega)]
        omega
    rw [hsing, List.map_cons, List.map_nil]
    congr 1
    omega
  rw [h1, h2, h3]
  rfl

theorem succ_mod_eq_iff (n k i : ℕ) (hn : 0 < n) (hk : k < n) (hi : i < n) :
    ((k + 1) % n = i) ↔ k = (if i = 0 then n - 1 else i - 1) := by
  by_cases hk1 : k + 1 = n
  · rw [hk1, Nat.mod_self]
    by_cases hi0 : i = 0
    · simp [hi0]; omega
    · simp [hi0]; omega
  · rw [Nat.mod_eq_of_lt (by omega)]
    by_cases hi0 : i = 0
    · simp [hi0]; omega
    · simp [hi0]; omega

/-- C8: deleting a vertex of a 3-vertex polygon is rejected with the state
(vertex and edge lists included) unchanged; with 4 or more vertices the
chosen vertex is removed from the vertex list and its two incident edges are
replaced by the single plain Line edge joining its former neighbours (the
lower incident index is overwritten, the higher one deleted), leaving one
fewer vertex and one fewer edge. -/
theorem delete_vertex_spec (s : PolyState) (hwf : WellFormed s) (i : ℕ)
    (hi : i < s.vertices.length) :
    (s.vertices.length = 3 → delete_vertex s (idAt s i) = s)
    ∧ (4 ≤ s.vertices.length →
        (delete_vertex s (idAt s i)).vertices = s.vertices.eraseIdx i
        ∧ (delete_vertex s (idAt s i)).edges
            = (if i = 0 then
                (s.edges.set 0 (mkEdge (idAt s (s.vertices.length - 1))
                  (idAt s 1))).eraseIdx (s.vertices.length - 1)
               else
                (s.edges.set (i - 1) (mkEdge (idAt s (i - 1))
                  (idAt s ((i + 1) % s.vertices.length)))).eraseIdx i)
        ∧ (delete_vertex s (idAt s i)).vertices.length
            = s.vertices.length - 1
        ∧ (delete_vertex s (idAt s i)).edges.length
            = s.vertices.length - 1) := by
  obtain ⟨h3, hnodup, hlen, hedge⟩ := hwf
  constructor
  · intro hn3
    unfold delete_vertex
    rw [if_neg (by omega)]
  · intro h4
    have hn0 : 0 < s.vertices.length := by omega
    have hdi : s.vertices.indexOf (idAt s i) = i := indexOf_idAt s hnodup i hi
    have hchar : ∀ k, k < s.edges.length →
        (((edgeAt s k).v1 == idAt s i || (edgeAt s k).v2 == idAt s i) = true
          ↔ (k = (if i = 0 then i else i - 1)
             ∨ k = (if i = 0 then s.vertices.length - 1 else i))) := by
      intro k hk
      obtain ⟨hv1, hv2⟩ := hedge k hk
      rw [Bool.or_eq_true, beq_iff_eq, beq_iff_eq, hv1, hv2]
      have hkn : k < s.vertices.length := by omega
      have hk1n : (k + 1) % s.vertices.length < s.vertices.length :=
        Nat.mod_lt _ hn0
      constructor
      · rintro (h | h)
        · have := idAt_inj s hnodup k i hkn hi h
          by_cases hi0 : i = 0
          · left; rw [hi0] at this ⊢; exact this
          · right; rw [if_neg hi0]; exact this
        · have := idAt_inj s hnodup _ i hk1n hi h
          have hiff := (succ_mod_eq_iff s.vertices.length k i hn0 hkn hi).1 this
          by_cases hi0 : i = 0
          · right
            rw [if_pos hi0]
            rw [if_pos hi0] at hiff
            exact hiff
          · left
            rw [if_neg hi0]
            rw [if_neg hi0] at hiff
            exact hiff
      · intro h
        by_cases hi0 : i = 0
        · rw [if_pos hi0, if_pos hi0] at h
          rcases h with h | h
          · left; rw [h]
          · right
            rw [h]
            congr 1
            rw [(succ_mod_eq_iff s.vertices.length _ i hn0 (by omega) hi).2
              (by rw [if_pos hi0])]
        · rw [if_neg hi0, if_neg hi0] at h
          rcases h with h | h
          · right
            rw [h]
            congr 1
            rw [(succ_mod_eq_iff s.vertices.length _ i hn0 (by omega) hi).2
              (by rw [if_neg hi0])]
          · left; rw [h]
    have hfilter : (List.range s.edges.length).filter
        (fun k => (edgeAt s k).v1 == idAt s i || (edgeAt s k).v2 == idAt s i)
          = (if i = 0 then [0, s.vertices.length - 1] else [i - 1, i]) := by
      by_cases hi0 : i = 0
      · rw [if_pos hi0]
        apply range_filter_pair _ _ _ _ (by omega) (by omega)
        intro k hk
        rw [hchar k hk, if_pos hi0, if_pos hi0, hi0]
      · rw [if_neg hi0]
        apply range_filter_pair _ _ _ _ (by omega) (by omega)
        intro k hk
        rw [hchar k hk, if_neg hi0, if_neg hi0]
    unfold delete_vertex
    dsimp only
    rw [if_pos (by omega), hdi, hfilter]
    by_cases hi0 : i = 0
    · rw [if_pos hi0, if_pos hi0]
      subst hi0
      have hprev : (0 + s.vertices.length - 1) % s.vertices.length
          = s.vertices.length - 1 := by
        rw [Nat.mod_eq_of_lt (by omega)]
        omega
      have hnext : (0 + 1) % s.vertices.length = 1 :=
        Nat.mod_eq_of_lt (by omega)
      rw [hprev, hnext]
      dsimp only [List.headD, List.drop, List.reverse, List.foldl]
      refine ⟨rfl, ?_, ?_, ?_⟩
      · simp
      · rw [List.length_eraseIdx]
        simp [hi]
      · rw [List.length_eraseIdx]
        simp only [List.length_set, hlen]
        rw [if_pos (by omega)]
    · rw [if_neg hi0, if_neg hi0]
      have hprev : (i + s.vertices.length - 1) % s.vertices.length = i - 1 := by
        rw [show i + s.vertices.length - 1 = (i - 1) + s.vertices.length
          by omega, Nat.add_mod_right, Nat.mod_eq_of_lt (by omega)]
      rw [hprev]
      dsimp only [List.headD, List.drop, List.reverse, List.foldl]
      refine ⟨rfl, ?_, ?_, ?_⟩
      · simp
      · rw [List.length_eraseIdx]
        simp [hi]
      · rw [List.length_eraseIdx]
        simp only [List.length_set, hlen]
        rw [if_pos (by omega)]

/-- Concrete well-formed quadrilateral for the deletion witness. -/
noncomputable def stateC8 : PolyState :=
  { vertices := [0, 1, 2, 3]
  , pos := fun i => ⟨(i : ℝ), 0⟩
  , cont := fun _ => ContinuityType.G0
  , edges := [mkEdge 0 1, mkEdge 1 2, mkEdge 2 3, mkEdge 3 0] }

theorem stateC8_wf : WellFormed stateC8 := by
  refine ⟨by norm_num [stateC8], by decide, by decide, ?_⟩
  decide

/-- Witness for `delete_vertex_spec` on `stateC8` at vertex index 1. -/
theorem delete_vertex_spec_witness :
    (stateC8.vertices.length = 3
      → delete_vertex stateC8 (idAt stateC8 1) = stateC8)
    ∧ (4 ≤ stateC8.vertices.length →
        (delete_vertex stateC8 (idAt stateC8 1)).vertices
            = stateC8.vertices.eraseIdx 1
        ∧ (delete_vertex stateC8 (idAt stateC8 1)).edges
            = (if (1:ℕ) = 0 then
                (stateC8.edges.set 0 (mkEdge
                  (idAt stateC8 (stateC8.vertices.length - 1))
                  (idAt stateC8 1))).eraseIdx (stateC8.vertices.length - 1)
               else
                (stateC8.edges.set 0 (mkEdge (idAt stateC8 0)
                  (idAt stateC8 (2 % stateC8.vertices.length)))).eraseIdx 1)
        ∧ (delete_vertex stateC8 (idAt stateC8 1)).vertices.length
            = stateC8.vertices.length - 1
        ∧ (delete_vertex stateC8 (idAt stateC8 1)).edges.length
            = stateC8.vertices.length - 1) :=
  delete_vertex_spec stateC8 stateC8_wf 1 (by norm_num [stateC8])

/-! ### Vertex-move propagation (`on_vertex_moved`,
src/graphics/polygon_item.py lines 368-418)

The rightward and leftward `while` loops are embedded as fuel recursions
with fuel `n` (the vertex count): the source loop breaks at the latest when
`j` returns to the origin index, after at most `n − 1` iterations, so the
fuel never runs out before the loop's own break.  Python's `(i - 1) % n`
is written `(i + n - 1) % n` (equal for the `0 ≤ i < n` indices the loop
produces). -/

/-- Rightward propagation loop of `on_vertex_moved`. -/
noncomputable def walkRight : PolyState → ℕ → ℕ → ℕ → PolyState
  | s, _, _, 0 => s
  | s, startIdx, i, fuel + 1 =>
    let n := s.vertices.length
    let j := (i + 1) % n
    if j = startIdx then s
    else
      let r := enforceEdgeConstraint s (idAt s i) (idAt s j)
      if r.2 then walkRight r.1 startIdx j fuel else r.1

/-- Leftward propagation loop of `on_vertex_moved`. -/
noncomputable def walkLeft : PolyState → ℕ → ℕ → ℕ → PolyState
  | s, _, _, 0 => s
  | s, startIdx, i, fuel + 1 =>
    let n := s.vertices.length
    let j := (i + n - 1) % n
    if j = startIdx then s
    else
      let r := enforceEdgeConstraint s (idAt s i) (idAt s j)
      if r.2 then walkLeft r.1 startIdx j fuel else r.1

/-- One step of the trailing continuity pass of `on_vertex_moved`: enforce
continuity at every vertex that requests it. -/
noncomputable def contPassStep (st : PolyState) (v : ℕ) : PolyState :=
  if st.cont v ≠ ContinuityType.G0
  then enforce_vertex_continuity_from_vertex st v else st

/-- `on_vertex_moved`: write the externally supplied position, propagate
constraints rightward then leftward around the cycle, then re-enforce
continuity for every vertex that requests it. -/
noncomputable def on_vertex_moved (s : PolyState) (v : ℕ) (newPos : Point) :
    PolyState :=
  let s0 := setPos s v newPos
  let n := s0.vertices.length
  let s1 :=
    if 1 < n then
      let idx := s0.vertices.indexOf v
      let sR := walkRight s0 idx idx n
      walkLeft sR idx idx n
    else s0
  s1.vertices.foldl contPassStep s1

/-- First-match search characterized by a unique satisfying position. -/
theorem find?_eq_of_unique {α : Type} (l : List α) (p : α → Bool) (k : ℕ)
    (d : α) (hk : k < l.length) (hpk : p (l.getD k d) = true)
    (hprev : ∀ j, j < k → p (l.getD j d) = false) :
    l.find? p = some (l.getD k d) := by
  induction l generalizing k with
  | nil => simp at hk
  | cons a t ih =>
    cases k with
    | zero =>
      rw [List.find?_cons_of_pos _ (by simpa using hpk)]
      simp
    | succ k =>
      rw [List.find?_cons_of_neg _ (by simpa using hprev 0 (Nat.succ_pos k))]
      simpa using ih k (by simpa using hk) (by simpa using hpk)
        (fun j hj => by simpa using hprev (j + 1) (by omega))

theorem edgeAt_congr (s s' : PolyState) (h : s'.edges = s.edges) (k : ℕ) :
    edgeAt s' k = edgeAt s k := by
  unfold edgeAt
  rw [h]

theorem idAt_congr (s s' : PolyState) (h : s'.vertices = s.vertices) (k : ℕ) :
    idAt s' k = idAt s k := by
  unfold idAt
  rw [h]

theorem WellFormed_of_eq (s s' : PolyState) (hv : s'.vertices = s.vertices)
    (he : s'.edges = s.edges) (hwf : WellFormed s) : WellFormed s' := by
  unfold WellFormed at *
  unfold edgeAt idAt at *
  rw [hv, he]
  exact hwf

/-- In a well-formed polygon, `_edge_between` on the endpoints of the `k`-th
boundary edge (in either orientation) finds exactly that edge. -/
theorem edgeBetween_wf (s : PolyState) (hwf : WellFormed s) (k : ℕ)
    (hk : k < s.vertices.length) (a b : ℕ)
    (hab : (a = idAt s k ∧ b = idAt s ((k + 1) % s.vertices.length))
         ∨ (a = idAt s ((k + 1) % s.vertices.length) ∧ b = idAt s k)) :
    edgeBetween s a b = some (edgeAt s k) := by
  obtain ⟨h3, hnodup, hlen, hedge⟩ := hwf
  have hn0 : 0 < s.vertices.length := by omega
  have hkE : k < s.edges.length := by omega
  unfold edgeBetween
  apply find?_eq_of_unique s.edges _ k dfltEdge hkE
  · obtain ⟨hv1, hv2⟩ := hedge k hkE
    apply decide_eq_true
    rcases hab with ⟨ha, hb⟩ | ⟨ha, hb⟩
    · exact Or.inl ⟨by rw [← ha] at hv1; exact hv1, by rw [← hb] at hv2; exact hv2⟩
    · exact Or.inr ⟨by rw [← hb] at hv1; exact hv1, by rw [← ha] at hv2; exact hv2⟩
  · intro j hj
    obtain ⟨hv1, hv2⟩ := hedge j (by omega)
    apply decide_eq_false
    have hjn : j < s.vertices.length := by omega
    have hj1n : (j + 1) % s.vertices.length < s.vertices.length :=
      Nat.mod_lt _ hn0
    have hk1n : (k + 1) % s.vertices.length < s.vertices.length :=
      Nat.mod_lt _ hn0
    have hmod2 : ¬ (j = (k + 1) % s.vertices.length
        ∧ (j + 1) % s.vertices.length = k) := by
      rintro ⟨hj1, hj2⟩
      rw [hj1, Nat.mod_add_mod] at hj2
      have hkk : k % s.vertices.length = k := Nat.mod_eq_of_lt hk
      have hcong : (k + 2) % s.vertices.length = k % s.vertices.length := by
        rw [hkk]
        exact hj2
      have hdvd : s.vertices.length ∣ 2 := by
        have := (Nat.modEq_iff_dvd' (by omega : k ≤ k + 2)).1
          (Nat.ModEq.symm hcong)
        simpa using this
      have := Nat.le_of_dvd (by norm_num) hdvd
      omega
    rintro (⟨ha, hb⟩ | ⟨ha, hb⟩)
    · have ha2 : idAt s j = a := by rw [← hv1]; exact ha
      have hb2 : idAt s ((j + 1) % s.vertices.length) = b := by
        rw [← hv2]; exact hb
      rcases hab with ⟨ha', hb'⟩ | ⟨ha', hb'⟩
      · rw [ha'] at ha2
        have := idAt_inj s hnodup j k hjn hk ha2
        omega
      · rw [ha'] at ha2
        rw [hb'] at hb2
        exact hmod2 ⟨idAt_inj s hnodup j _ hjn hk1n ha2,
          idAt_inj s hnodup _ k hj1n hk hb2⟩
    · have ha2 : idAt s j = b := by rw [← hv1]; exact ha
      have hb2 : idAt s ((j + 1) % s.vertices.length) = a := by
        rw [← hv2]; exact hb
      rcases hab with ⟨ha', hb'⟩ | ⟨ha', hb'⟩
      · rw [hb'] at ha2
        rw [ha'] at hb2
        exact hmod2 ⟨idAt_inj s hnodup j _ hjn hk1n ha2,
          idAt_inj s hnodup _ k hj1n hk hb2⟩
      · rw [hb'] at ha2
        have := idAt_inj s hnodup j k hjn hk ha2
        omega

/-- A propagation step across an unconstrained edge stops with the state
unchanged. -/
theorem enforce_step_stop (s : PolyState) (hwf : WellFormed s) (k : ℕ)
    (hk : k < s.vertices.length) (a b : ℕ)
    (hab : (a = idAt s k ∧ b = idAt s ((k + 1) % s.vertices.length))
         ∨ (a = idAt s ((k + 1) % s.vertices.length) ∧ b = idAt s k))
    (hnone : (edgeAt s k).constraint_type = ConstraintType.NONE) :
    enforceEdgeConstraint s a b = (s, false) := by
  unfold enforceEdgeConstraint
  rw [edgeBetween_wf s hwf k hk a b hab]
  dsimp only
  rw [hnone]

/-- A propagation step across a constrained edge reports "continue". -/
theorem enforce_step_true (s : PolyState) (hwf : WellFormed s) (k : ℕ)
    (hk : k < s.vertices.length) (a b : ℕ)
    (hab : (a = idAt s k ∧ b = idAt s ((k + 1) % s.vertices.length))
         ∨ (a = idAt s ((k + 1) % s.vertices.length) ∧ b = idAt s k))
    (hct : (edgeAt s k).constraint_type ≠ ConstraintType.NONE) :
    (enforceEdgeConstraint s a b).2 = true := by
  unfold enforceEdgeConstraint
  rw [edgeBetween_wf s hwf k hk a b hab]
  dsimp only
  cases h : (edgeAt s k).constraint_type
  · exact absurd h hct
  all_goals rfl

/-- The rightward walk never writes any vertex strictly beyond the first
unconstrained edge in its direction: if the edge at right offset `d` from
`i` is unconstrained and `w` is none of the ids written in the first `d`
steps, `w`'s position survives the walk for any fuel. -/
theorem walkRight_frame :
    ∀ (fuel : ℕ) (s : PolyState) (startIdx i d w : ℕ),
    WellFormed s →
    i < s.vertices.length →
    (edgeAt s ((i + d) % s.vertices.length)).constraint_type
      = ConstraintType.NONE →
    (∀ u, u < d → w ≠ idAt s ((i + u + 1) % s.vertices.length)) →
    (walkRight s startIdx i fuel).pos w = s.pos w := by
  intro fuel
  induction fuel with
  | zero => intro s startIdx i d w _ _ _ _; rfl
  | succ fuel ih =>
    intro s startIdx i d w hwf hi hstop havoid
    have hn0 : 0 < s.vertices.length := by
      obtain ⟨h3, _, _, _⟩ := hwf; omega
    rw [walkRight]
    dsimp only
    by_cases hj : (i + 1) % s.vertices.length = startIdx
    · rw [if_pos hj]
    · rw [if_neg hj]
      have hab : (idAt s i = idAt s i
            ∧ idAt s ((i + 1) % s.vertices.length)
              = idAt s ((i + 1) % s.vertices.length))
          ∨ (idAt s i = idAt s ((i + 1) % s.vertices.length)
            ∧ idAt s ((i + 1) % s.vertices.length) = idAt s i) :=
        Or.inl ⟨rfl, rfl⟩
      cases d with
      | zero =>
        have hstop' : (edgeAt s i).constraint_type = ConstraintType.NONE := by
          rw [show (i + 0) % s.vertices.length = i by
            rw [Nat.add_zero, Nat.mod_eq_of_lt hi]] at hstop
          exact hstop
        rw [enforce_step_stop s hwf i hi _ _ hab hstop']
        simp
      | succ d =>
        by_cases hnone : (edgeAt s i).constraint_type = ConstraintType.NONE
        · rw [enforce_step_stop s hwf i hi _ _ hab hnone]
          simp
        · have h2 := enforce_step_true s hwf i hi _ _ hab hnone
          rw [if_pos h2]
          set r := enforceEdgeConstraint s (idAt s i)
            (idAt s ((i + 1) % s.vertices.length)) with hr
          have hrv := enforceEdgeConstraint_vertices s (idAt s i)
            (idAt s ((i + 1) % s.vertices.length))
          have hre := enforceEdgeConstraint_edges s (idAt s i)
            (idAt s ((i + 1) % s.vertices.length))
          have hwp : r.1.pos w = s.pos w :=
            enforceEdgeConstraint_pos_ne s _ _ w
              (by
                have := havoid 0 (by omega)
                rw [show i + 0 + 1 = i + 1 by omega] at this
                exact this)
          have hlen' : r.1.vertices.length = s.vertices.length := by
            rw [hrv]
          have hrec := ih r.1 startIdx ((i + 1) % s.vertices.length) d w
            (WellFormed_of_eq s r.1 hrv hre hwf)
            (by rw [hlen']; exact Nat.mod_lt _ hn0)
            (by
              rw [edgeAt_congr s r.1 hre, hlen', Nat.mod_add_mod,
                show i + 1 + d = i + (d + 1) by omega]
              exact hstop)
            (by
              intro u hu
              rw [idAt_congr s r.1 hrv, hlen',
                show (i + 1) % s.vertices.length + u + 1
                  = (i + 1) % s.vertices.length + (u + 1) by omega,
                Nat.mod_add_mod,
                show i + 1 + (u + 1) = i + (u + 1) + 1 by omega]
              exact havoid (u + 1) (by omega))
          rw [hrec, hwp]

theorem setPos_vertices (s : PolyState) (i : ℕ) (p : Point) :
    (setPos s i p).vertices = s.vertices := rfl

theorem setPos_edges (s : PolyState) (i : ℕ) (p : Point) :
    (setPos s i p).edges = s.edges := rfl

theorem setPos_pos_ne (s : PolyState) (i : ℕ) (p : Point) (w : ℕ)
    (hw : w ≠ i) : (setPos s i p).pos w = s.pos w := by
  unfold setPos
  exact Function.update_noteq hw _ _

theorem idAt_ne (s : PolyState) (hnodup : s.vertices.Nodup) (k m : ℕ)
    (hk : k < s.vertices.length) (hm : m < s.vertices.length) (h : k ≠ m) :
    idAt s k ≠ idAt s m :=
  fun he => h (idAt_inj s hnodup k m hk hm he)

/-- `(j + 1) mod n` returns to `i` when `j` is the left neighbour index. -/
theorem left_succ_mod (n i : ℕ) (hn : 0 < n) (hi : i < n) :
    ((i + n - 1) % n + 1) % n = i := by
  rw [Nat.mod_add_mod, show i + n - 1 + 1 = i + n by omega,
    Nat.add_mod_right, Nat.mod_eq_of_lt hi]

/-- The leftward walk never writes any vertex strictly beyond the first
unconstrained edge in its direction. -/
theorem walkLeft_frame :
    ∀ (fuel : ℕ) (s : PolyState) (startIdx i d w : ℕ),
    WellFormed s →
    i < s.vertices.length →
    d < s.vertices.length →
    (edgeAt s ((i + (s.vertices.length - 1 - d))
        % s.vertices.length)).constraint_type = ConstraintType.NONE →
    (∀ u, u < d → w ≠ idAt s ((i + (s.vertices.length - 1 - u))
        % s.vertices.length)) →
    (walkLeft s startIdx i fuel).pos w = s.pos w := by
  intro fuel
  induction fuel with
  | zero => intro s startIdx i d w _ _ _ _ _; rfl
  | succ fuel ih =>
    intro s startIdx i d w hwf hi hd hstop havoid
    have hn0 : 0 < s.vertices.length := by
      obtain ⟨h3, _, _, _⟩ := hwf; omega
    rw [walkLeft]
    dsimp only
    by_cases hj : (i + s.vertices.length - 1) % s.vertices.length = startIdx
    · rw [if_pos hj]
    · rw [if_neg hj]
      have hjlt : (i + s.vertices.length - 1) % s.vertices.length
          < s.vertices.length := Nat.mod_lt _ hn0
      have hsucc := left_succ_mod s.vertices.length i hn0 hi
      have hab : (idAt s i
            = idAt s ((i + s.vertices.length - 1) % s.vertices.length)
            ∧ idAt s ((i + s.vertices.length - 1) % s.vertices.length)
              = idAt s (((i + s.vertices.length - 1) % s.vertices.length + 1)
                % s.vertices.length))
          ∨ (idAt s i
            = idAt s (((i + s.vertices.length - 1) % s.vertices.length + 1)
                % s.vertices.length)
            ∧ idAt s ((i + s.vertices.length - 1) % s.vertices.length)
              = idAt s ((i + s.vertices.length - 1) % s.vertices.length)) :=
        Or.inr ⟨by rw [hsucc], rfl⟩
      cases d with
      | zero =>
        have hjeq : (i + (s.vertices.length - 1 - 0)) % s.vertices.length
            = (i + s.vertices.length - 1) % s.vertices.length := by
          congr 1
          omega
        rw [hjeq] at hstop
        rw [enforce_step_stop s hwf
          ((i + s.vertices.length - 1) % s.vertices.length) hjlt (idAt s i)
          (idAt s ((i + s.vertices.length - 1) % s.vertices.length)) hab hstop]
        simp
      | succ d =>
        by_cases hnone : (edgeAt s
            ((i + s.vertices.length - 1) % s.vertices.length)).constraint_type
              = ConstraintType.NONE
        · rw [enforce_step_stop s hwf
            ((i + s.vertices.length - 1) % s.vertices.length) hjlt (idAt s i)
            (idAt s ((i + s.vertices.length - 1) % s.vertices.length)) hab
            hnone]
          simp
        · have h2 := enforce_step_true s hwf
            ((i + s.vertices.length - 1) % s.vertices.length) hjlt (idAt s i)
            (idAt s ((i + s.vertices.length - 1) % s.vertices.length)) hab
            hnone
          rw [if_pos h2]
          set r := enforceEdgeConstraint s (idAt s i)
            (idAt s ((i + s.vertices.length - 1) % s.vertices.length)) with hr
          have hrv := enforceEdgeConstraint_vertices s (idAt s i)
            (idAt s ((i + s.vertices.length - 1) % s.vertices.length))
          have hre := enforceEdgeConstraint_edges s (idAt s i)
            (idAt s ((i + s.vertices.length - 1) % s.vertices.length))
          have hwp : r.1.pos w = s.pos w :=
            enforceEdgeConstraint_pos_ne s _ _ w
              (by
                have h0 := havoid 0 (by omega)
                rw [show i + (s.vertices.length - 1 - 0)
                  = i + s.vertices.length - 1 by omega] at h0
                exact h0)
          have hlen' : r.1.vertices.length = s.vertices.length := by
            rw [hrv]
          have hrec := ih r.1 startIdx
            ((i + s.vertices.length - 1) % s.vertices.length) d w
            (WellFormed_of_eq s r.1 hrv hre hwf)
            (by rw [hlen']; exact hjlt)
            (by rw [hlen']; omega)
            (by
              rw [edgeAt_congr s r.1 hre, hlen', Nat.mod_add_mod,
                show i + s.vertices.length - 1
                    + (s.vertices.length - 1 - d)
                  = (i + (s.vertices.length - 1 - (d + 1)))
                    + s.vertices.length by omega,
                Nat.add_mod_right]
              exact hstop)
            (by
              intro u hu
              rw [idAt_congr s r.1 hrv, hlen', Nat.mod_add_mod,
                show i + s.vertices.length - 1
                    + (s.vertices.length - 1 - u)
                  = (i + (s.vertices.length - 1 - (u + 1)))
                    + s.vertices.length by omega,
                Nat.add_mod_right]
              exact havoid (u + 1) (by omega))
          rw [hrec, hwp]

theorem walkRight_structure : ∀ (fuel : ℕ) (s : PolyState) (a i : ℕ),
    (walkRight s a i fuel).vertices = s.vertices
    ∧ (walkRight s a i fuel).edges = s.edges := by
  intro fuel
  induction fuel with
  | zero => intro s a i; exact ⟨rfl, rfl⟩
  | succ fuel ih =>
    intro s a i
    rw [walkRight]
    dsimp only
    split
    · exact ⟨rfl, rfl⟩
    · split
      · obtain ⟨h1, h2⟩ := ih (enforceEdgeConstraint s (idAt s i)
          (idAt s ((i + 1) % s.vertices.length))).1 a
          ((i + 1) % s.vertices.length)
        exact ⟨h1.trans (enforceEdgeConstraint_vertices s _ _),
          h2.trans (enforceEdgeConstraint_edges s _ _)⟩
      · exact ⟨enforceEdgeConstraint_vertices s _ _,
          enforceEdgeConstraint_edges s _ _⟩

theorem walkLeft_structure : ∀ (fuel : ℕ) (s : PolyState) (a i : ℕ),
    (walkLeft s a i fuel).vertices = s.vertices
    ∧ (walkLeft s a i fuel).edges = s.edges := by
  intro fuel
  induction fuel with
  | zero => intro s a i; exact ⟨rfl, rfl⟩
  | succ fuel ih =>
    intro s a i
    rw [walkLeft]
    dsimp only
    split
    · exact ⟨rfl, rfl⟩
    · split
      · obtain ⟨h1, h2⟩ := ih (enforceEdgeConstraint s (idAt s i)
          (idAt s ((i + s.vertices.length - 1) % s.vertices.length))).1 a
          ((i + s.vertices.length - 1) % s.vertices.length)
        exact ⟨h1.trans (enforceEdgeConstraint_vertices s _ _),
          h2.trans (enforceEdgeConstraint_edges s _ _)⟩
      · exact ⟨enforceEdgeConstraint_vertices s _ _,
          enforceEdgeConstraint_edges s _ _⟩

/-- The trailing continuity pass of `on_vertex_moved` never changes any
vertex position. -/
theorem foldl_contPass_pos : ∀ (l : List ℕ) (st : PolyState) (w : ℕ),
    (l.foldl contPassStep st).pos w = st.pos w := by
  intro l
  induction l with
  | nil => intro st w; rfl
  | cons a t ih =>
    intro st w
    rw [List.foldl_cons, ih]
    unfold contPassStep
    split
    · rw [(enforce_from_vertex_frame st a).1]
    · rfl

/-- C6: vertex-move propagation halts, in each direction, at the first edge
without a constraint (or after a full loop), and the whole of
`on_vertex_moved` — both walks plus the trailing continuity pass — never
changes the position of a vertex lying strictly beyond the first
unconstrained edge in both directions.  `tR` (resp. `tL`) is a right
(resp. left) offset at which an unconstrained edge exists; vertex index `m`
is beyond both. -/
theorem on_vertex_moved_frame (s : PolyState) (hwf : WellFormed s)
    (start m tR tL : ℕ) (p : Point)
    (hstart : start < s.vertices.length) (hm : m < s.vertices.length)
    (hm0 : m ≠ start) (htL : tL < s.vertices.length)
    (hstopR : (edgeAt s ((start + tR) % s.vertices.length)).constraint_type
        = ConstraintType.NONE)
    (hstopL : (edgeAt s ((start + (s.vertices.length - 1 - tL))
        % s.vertices.length)).constraint_type = ConstraintType.NONE)
    (hmR : ∀ u, u < tR → m ≠ (start + u + 1) % s.vertices.length)
    (hmL : ∀ u, u < tL → m ≠ (start + (s.vertices.length - 1 - u))
        % s.vertices.length) :
    (on_vertex_moved s (idAt s start) p).pos (idAt s m)
      = s.pos (idAt s m) := by
  have hnodup : s.vertices.Nodup := hwf.2.1
  have h3 : 3 ≤ s.vertices.length := hwf.1
  have hn0 : 0 < s.vertices.length := by omega
  set w := idAt s m with hw
  set s0 := setPos s (idAt s start) p with hs0
  have hs0v : s0.vertices = s.vertices := rfl
  have hs0e : s0.edges = s.edges := rfl
  have hwf0 : WellFormed s0 := WellFormed_of_eq s s0 hs0v hs0e hwf
  have hidx : s0.vertices.indexOf (idAt s start) = start :=
    indexOf_idAt s hnodup start hstart
  set sR := walkRight s0 start start s0.vertices.length with hsR
  obtain ⟨hsRv, hsRe⟩ :=
    walkRight_structure s0.vertices.length s0 start start
  have hRfr : sR.pos w = s0.pos w := by
    apply walkRight_frame s0.vertices.length s0 start start tR w hwf0 hstart
    · exact hstopR
    · intro u hu
      rw [show idAt s0 ((start + u + 1) % s0.vertices.length)
          = idAt s ((start + u + 1) % s.vertices.length) from rfl, hw]
      exact idAt_ne s hnodup m _ hm (Nat.mod_lt _ hn0) (hmR u hu)
  have hwfR : WellFormed sR := WellFormed_of_eq s0 sR hsRv hsRe hwf0
  set sL := walkLeft sR start start s0.vertices.length with hsL
  have hsRlen : sR.vertices.length = s.vertices.length := by
    rw [hsRv, hs0v]
  have hLfr : sL.pos w = sR.pos w := by
    apply walkLeft_frame s0.vertices.length sR start start tL w hwfR
      (by rw [hsRlen]; exact hstart) (by rw [hsRlen]; exact htL)
    · rw [edgeAt_congr s0 sR hsRe, hsRlen]
      exact hstopL
    · intro u hu
      rw [idAt_congr s0 sR hsRv, hsRlen,
        show idAt s0 ((start + (s.vertices.length - 1 - u))
          % s.vertices.length)
            = idAt s ((start + (s.vertices.length - 1 - u))
              % s.vertices.length) from rfl, hw]
      exact idAt_ne s hnodup m _ hm (Nat.mod_lt _ hn0) (hmL u hu)
  have h0fr : s0.pos w = s.pos w :=
    setPos_pos_ne s (idAt s start) p w
      (idAt_ne s hnodup m start hm hstart hm0)
  show (on_vertex_moved s (idAt s start) p).pos w = s.pos w
  unfold on_vertex_moved
  dsimp only
  rw [foldl_contPass_pos]
  rw [← hs0, hidx,
    if_pos (show 1 < s0.vertices.length from by
      rw [hs0v]; omega)]
  rw [← hsR, ← hsL]
  rw [hLfr, hRfr, h0fr]

/-- Concrete pentagon for the propagation-frame witness: only edge 0
carries a constraint (Vertical); every other edge is unconstrained. -/
noncomputable def stateC6 : PolyState :=
  { vertices := [0, 1, 2, 3, 4]
  , pos := fun i => ⟨(i : ℝ), (i : ℝ) * 2⟩
  , cont := fun _ => ContinuityType.G0
  , edges :=
      [ ⟨0, 1, EdgeType.LINE, ⟨0, 0⟩, ⟨0, 0⟩, ConstraintType.VERTICAL, none⟩
      , mkEdge 1 2, mkEdge 2 3, mkEdge 3 4, mkEdge 4 0 ] }

theorem stateC6_wf : WellFormed stateC6 := by
  refine ⟨by norm_num [stateC6], by decide, by decide, ?_⟩
  decide

/-- Witness for `on_vertex_moved_frame`: moving vertex 0 of `stateC6` never
moves vertex 2, which lies beyond the unconstrained edge 1 on the right and
the unconstrained edge 4 on the left. -/
theorem on_vertex_moved_frame_witness :
    (on_vertex_moved stateC6 (idAt stateC6 0) ⟨100, 100⟩).pos (idAt stateC6 2)
      = stateC6.pos (idAt stateC6 2) :=
  on_vertex_moved_frame stateC6 stateC6_wf 0 2 1 0 ⟨100, 100⟩
    (by norm_num [stateC6]) (by norm_num [stateC6]) (by decide)
    (by norm_num [stateC6]) rfl rfl (by decide) (by omega)

end PolyEdit
